import Mathlib

/-!
Verification of the zhdate lunar-calendar library (`src/zhdate/main.py`)
against its natural-language specification.

The repository ships only `main.py`; the data module `constants.py`
(LUNARYEARCODE, LUNARNEWYEAR and the glyph tables) is not part of the
sources.  Following the specification, those tables are modelled
abstractly: the conversion functions are parametrised by a `LunarTable`,
and `SpecTable` records the invariants the specification states for the
table data.  `mockTable` is one concrete table satisfying `SpecTable`,
used to evaluate the functions on concrete inputs.

Dates are modelled at day granularity (the claims are all date-level):
a `datetime` is its proleptic-Gregorian ordinal (days since 0000-01-01,
with year 0 a leap year), and `yearOf` recovers the Gregorian year of an
ordinal, mirroring the `.year` attribute of Python's `datetime`.
-/

set_option maxRecDepth 4000

/-- Days from 0000-01-01 up to January 1st of year `y` in the proleptic
Gregorian calendar (year 0 is a leap year): 365 per year plus one for
every leap year strictly before `y`. -/
def daysBeforeYear (y : ℕ) : ℕ :=
  365 * y + (y + 3) / 4 - (y + 99) / 100 + (y + 399) / 400

/-- Fuel-driven search for the greatest year whose January 1st is not
after the given ordinal. -/
def yearSearch (ord : ℕ) : ℕ → ℕ → ℕ
  | 0, y => y
  | fuel + 1, y => if daysBeforeYear (y + 1) ≤ ord then yearSearch ord fuel (y + 1) else y

/-- Gregorian year containing the day with ordinal `ord`;  models the
`.year` attribute of a Python `datetime`. -/
def yearOfN (ord : ℕ) : ℕ :=
  yearSearch ord (ord / 146097 + 2) (ord / 366)

/-- Gregorian year of an ordinal given as an integer (all dates handled
by the library have nonnegative ordinals). -/
def yearOf (d : ℤ) : ℤ :=
  (yearOfN d.toNat : ℤ)

/-- Python list indexing `xs[i]`: nonnegative indices from the front,
negative indices wrap once from the back, anything else raises
`IndexError` (modelled as `none`). -/
def pyGet {α : Type} (xs : List α) (i : ℤ) : Option α :=
  if 0 ≤ i then xs.get? i.toNat
  else if 0 ≤ i + xs.length then xs.get? (i + xs.length).toNat
  else none

/-- Python slice `xs[:k]`: for nonnegative `k` the first `k` elements,
for negative `k` all but the last `-k` elements. -/
def pyTake {α : Type} (xs : List α) (k : ℤ) : List α :=
  if 0 ≤ k then xs.take k.toNat
  else xs.take (k + xs.length).toNat

/-- Errors a `ZhDate` operation can raise: `typeError` is the
`InvalidLunarDate` rejection raised by `__init__` via `TypeError`,
`indexError` an out-of-bounds table access, `nameError` the unbound
`month` variable when `from_datetime`'s search loop never breaks. -/
inductive PyError : Type
  | indexError : PyError
  | typeError : PyError
  | nameError : PyError
deriving DecidableEq

/-- The four data attributes of a `ZhDate` object that determine its
structural equality (`__eq__` compares exactly these). -/
structure ZhDate : Type where
  lunar_year : ℤ
  lunar_month : ℤ
  lunar_day : ℤ
  leap_month : Bool
deriving DecidableEq

deriving instance DecidableEq for Except

/-- Modelled from the spec: the Year Table of `constants.py` (absent
from the sources).  `LUNARYEARCODE` holds the packed year codes,
`LUNARNEWYEAR` the lunar New Year dates (the source stores them as
`"%Y%m%d"` strings and parses them with `strptime`; they are modelled
as already-parsed day ordinals). -/
structure LunarTable : Type where
  LUNARYEARCODE : List ℕ
  LUNARNEWYEAR : List ℕ

/-- `ZhDate.decode`: unpack a year code into the list of month lengths,
with the leap month (if any) inserted at its position.  The loop
`for i in range(4, 16): month_days.insert(0, ...)` prepends one entry
per bit, and `month_days.insert(L, ...)` inserts the leap entry
(Python's `insert` clamps an index beyond the end, hence the `min`). -/
def decode (year_code : ℕ) : List ℕ :=
  let month_days :=
    (List.range' 4 12).foldl
      (fun acc i => (if (year_code >>> i) &&& 1 ≠ 0 then 30 else 29) :: acc) []
  if year_code &&& 0xF ≠ 0 then
    month_days.insertIdx (min (year_code &&& 0xF) month_days.length)
      (if year_code >>> 16 ≠ 0 then 30 else 29)
  else
    month_days

/-- `ZhDate.validate`.  The `none` branch of the table lookup is
unreachable for the 201-entry table of the library, because the range
check guarantees `0 ≤ year - 1900 ≤ 200`. -/
def validate (LUNARYEARCODE : List ℕ) (year month day : ℤ) (leap : Bool) : Bool :=
  if ¬(1900 ≤ year ∧ year ≤ 2100 ∧ 1 ≤ month ∧ month ≤ 12 ∧ 1 ≤ day ∧ day ≤ 30) then
    false
  else
    match pyGet LUNARYEARCODE (year - 1900) with
    | none => false
    | some year_code =>
      if leap then
        if ((year_code &&& 0xF : ℕ) : ℤ) ≠ month then false
        else if day = 30 then decide (year_code >>> 16 = 1)
        else true
      else if day ≤ 29 then true
      else decide ((year_code >>> ((12 - month).toNat + 4)) &&& 1 = 1)

/-- `ZhDate.__init__`: the two table lookups happen before validation
(`self.year_code = LUNARYEARCODE[...]`, `self.newyear = ...`), so an
out-of-range year raises `IndexError` before `validate` can reject it;
a failing `validate` raises `TypeError` (the `InvalidLunarDate`
rejection). -/
def init (T : LunarTable) (y m d : ℤ) (leap : Bool) : Except PyError ZhDate :=
  match pyGet T.LUNARYEARCODE (y - 1900) with
  | none => Except.error PyError.indexError
  | some _ =>
    match pyGet T.LUNARNEWYEAR (y - 1900) with
    | none => Except.error PyError.indexError
    | some _ =>
      if validate T.LUNARYEARCODE y m d leap then Except.ok ⟨y, m, d, leap⟩
      else Except.error PyError.typeError

/-- The `self.year_code` attribute stored by `__init__`: the packed code
of the object's lunar year (defaulted to 0 when the lookup is out of
range, which cannot happen for a constructed object). -/
def yearCodeOf (T : LunarTable) (y : ℤ) : ℕ :=
  (pyGet T.LUNARYEARCODE (y - 1900)).getD 0

/-- The `self.newyear` attribute stored by `__init__`: the ordinal of
the lunar New Year of the object's lunar year. -/
def newYearOf (T : LunarTable) (y : ℤ) : ℕ :=
  (pyGet T.LUNARNEWYEAR (y - 1900)).getD 0

/-- `ZhDate.__days_passed`: days between the date and its year's lunar
New Year, by summing the month lengths before the date's month. -/
def days_passed (T : LunarTable) (z : ZhDate) : ℤ :=
  let month_days := decode (yearCodeOf T z.lunar_year)
  let month_leap : ℤ := ((yearCodeOf T z.lunar_year &&& 0xF : ℕ) : ℤ)
  let days_passed_month : ℕ :=
    if month_leap = 0 ∨ z.lunar_month < month_leap then
      (pyTake month_days (z.lunar_month - 1)).sum
    else if ¬z.leap_month ∧ z.lunar_month = month_leap then
      (pyTake month_days (z.lunar_month - 1)).sum
    else
      (pyTake month_days z.lunar_month).sum
  (days_passed_month : ℤ) + z.lunar_day - 1

/-- `ZhDate.to_datetime`: `self.newyear + timedelta(days=self.__days_passed())`,
as a day ordinal. -/
def to_datetime (T : LunarTable) (z : ZhDate) : ℤ :=
  (newYearOf T z.lunar_year : ℤ) + days_passed T z

/-- The `for pos, days in enumerate(accumulate(month_days))` loop of
`from_datetime`: returns the first `(pos, days, month_days[pos])` with
`days_passed + 1 <= days`, or `none` when the loop never breaks. -/
def findSlot : List ℕ → ℤ → ℕ → ℕ → Option (ℕ × ℕ × ℕ)
  | [], _, _, _ => none
  | md :: rest, dp, pos, acc =>
    let days := acc + md
    if dp + 1 ≤ (days : ℤ) then some (pos, days, md)
    else findSlot rest dp (pos + 1) days

/-- The body of `ZhDate.from_datetime` once the candidate lunar year is
fixed: compute the day offset from that year's New Year, walk the
accumulated month lengths, and map the found slot back to a
month/day/leap-flag triple (the Python locals `month`, `lunar_day`,
`lunar_month` and `leap_month` appear here inlined). -/
def from_body (T : LunarTable) (lunar_year dt : ℤ) : Except PyError ZhDate :=
  match pyGet T.LUNARNEWYEAR (lunar_year - 1900) with
  | none => Except.error PyError.indexError
  | some newyear_dt =>
    match pyGet T.LUNARYEARCODE (lunar_year - 1900) with
    | none => Except.error PyError.indexError
    | some year_code =>
      match findSlot (decode year_code) (dt - (newyear_dt : ℤ)) 0 0 with
      | none => Except.error PyError.nameError
      | some (pos, days, md_pos) =>
        init T lunar_year
          (if year_code &&& 0xF = 0 ∨ ((pos : ℤ) + 1) ≤ ((year_code &&& 0xF : ℕ) : ℤ)
            then (pos : ℤ) + 1 else (pos : ℤ) + 1 - 1)
          ((md_pos : ℤ) - ((days : ℤ) - (dt - (newyear_dt : ℤ))) + 1)
          (decide (year_code &&& 0xF ≠ 0) &&
            decide ((pos : ℤ) + 1 = ((year_code &&& 0xF : ℕ) : ℤ) + 1))

/-- `ZhDate.from_datetime`: locate a Gregorian date inside the lunar
calendar.  `lunar_year -= (newyear - dt).total_seconds() > 0` is the
candidate-year decrement; when the month loop of `from_body` finds no
slot the subsequent read of `month` raises a `NameError`-style
failure. -/
def from_datetime (T : LunarTable) (dt : ℤ) : Except PyError ZhDate :=
  match pyGet T.LUNARNEWYEAR (yearOf dt - 1900) with
  | none => Except.error PyError.indexError
  | some ny0 =>
    from_body T (yearOf dt - (if 0 < (ny0 : ℤ) - dt then 1 else 0)) dt

/-- Lookup in a glyph table, empty string when out of range (the
supported inputs never go out of range). -/
def strAt (xs : List String) (i : ℕ) : String :=
  match xs.get? i with
  | some s => s
  | none => ""

/-- `ZhDate.__tiandi`: stem-branch name of `anum`. -/
def tiandi (TIANGAN DIZHI : List String) (anum : ℤ) : String :=
  strAt TIANGAN (anum % 10).toNat ++ strAt DIZHI (anum % 12).toNat

/-- `ZhDate.chinese`: traditional rendering.  The glyph tables live in
the absent `constants.py`, so they are parameters.  The year digits
`int(str(self.lunar_year)[i])` are modelled arithmetically, which
agrees with the string form for the four-digit years of the supported
range. -/
def chinese (ZHNUMS SHENGXIAO TIANGAN DIZHI : List String) (z : ZhDate) : String :=
  let zh_year :=
    strAt ZHNUMS (z.lunar_year.toNat / 1000 % 10) ++
    strAt ZHNUMS (z.lunar_year.toNat / 100 % 10) ++
    strAt ZHNUMS (z.lunar_year.toNat / 10 % 10) ++
    strAt ZHNUMS (z.lunar_year.toNat % 10)
  let zh_month :=
    (if z.leap_month then "闰" else "") ++
    (if z.lunar_month = 1 then "正"
     else if z.lunar_month = 12 then "腊"
     else if z.lunar_month ≤ 10 then strAt ZHNUMS z.lunar_month.toNat
     else "十" ++ strAt ZHNUMS (z.lunar_month - 10).toNat)
  let zh_day :=
    if z.lunar_day ≤ 10 then "初" ++ strAt ZHNUMS z.lunar_day.toNat
    else if z.lunar_day < 20 then "十" ++ strAt ZHNUMS (z.lunar_day - 10).toNat
    else if z.lunar_day = 20 then "二十"
    else if z.lunar_day < 30 then "廿" ++ strAt ZHNUMS (z.lunar_day - 20).toNat
    else "三十"
  let year_tiandi := tiandi TIANGAN DIZHI (z.lunar_year - 1900 + 36)
  zh_year ++ "年" ++ zh_month ++ "月" ++ zh_day ++ " " ++ year_tiandi ++
    strAt SHENGXIAO ((z.lunar_year - 1900) % 12).toNat ++ "年"

/-- Modelled from the spec: invariants of the Year Table data
(`constants.py` is absent from the sources).  201 entries keyed by year
1900..2100; packed codes have their three fields in bits 0-16, with the
leap field between 0 and 12; each New Year date falls inside its
Gregorian year; consecutive New Year dates are separated by exactly the
decoded length of the lunar year between them (spec: strictly
increasing, each lunar year spanning its month-length sequence). -/
structure SpecTable (T : LunarTable) : Prop where
  hcode_len : T.LUNARYEARCODE.length = 201
  hny_len : T.LUNARNEWYEAR.length = 201
  hcode_lt : ∀ c ∈ T.LUNARYEARCODE, c < 2 ^ 17
  hleap_le : ∀ c ∈ T.LUNARYEARCODE, c &&& 0xF ≤ 12
  hny_year : ∀ i : ℕ, i < 201 → yearOfN (T.LUNARNEWYEAR.getD i 0) = 1900 + i
  hny_step : ∀ i : ℕ, i < 200 →
    T.LUNARNEWYEAR.getD (i + 1) 0 =
      T.LUNARNEWYEAR.getD i 0 + (decode (T.LUNARYEARCODE.getD i 0)).sum

/-- A 12-month year code: months alternate 30/29 days (354 days, no
leap month). -/
def mockCode354 : ℕ := 0xAAA0

/-- A 13-month year code: alternating months plus a long leap month
after month 6 (384 days). -/
def mockCode384 : ℕ := 0x1AAA6

/-- Build `n` consecutive mock table entries `(code, newYearOrdinal)`
starting at Gregorian year `y`, keeping each New Year 28-58 days into
its Gregorian year by choosing a long (384-day) lunar year whenever the
offset drops below 40. -/
def mkEntries : ℕ → ℕ → ℕ → List (ℕ × ℕ)
  | 0, _, _ => []
  | n + 1, y, ny =>
    let code := if ny < daysBeforeYear y + 40 then mockCode384 else mockCode354
    (code, ny) :: mkEntries n (y + 1) (ny + (decode code).sum)

/-- A concrete Year Table satisfying every `SpecTable` invariant, used
to evaluate the conversion functions on concrete inputs. -/
def mockTable : LunarTable :=
  let es := mkEntries 201 1900 (daysBeforeYear 1900 + 40)
  ⟨es.map Prod.fst, es.map Prod.snd⟩

/-- The twelve regular-month lengths of a year code, month `m` at index
`m - 1`, read from bits 15 down to 4 (the closed form of the prepend
loop in `decode`). -/
def regList (c : ℕ) : List ℕ :=
  [if (c >>> 15) &&& 1 ≠ 0 then 30 else 29,
   if (c >>> 14) &&& 1 ≠ 0 then 30 else 29,
   if (c >>> 13) &&& 1 ≠ 0 then 30 else 29,
   if (c >>> 12) &&& 1 ≠ 0 then 30 else 29,
   if (c >>> 11) &&& 1 ≠ 0 then 30 else 29,
   if (c >>> 10) &&& 1 ≠ 0 then 30 else 29,
   if (c >>> 9) &&& 1 ≠ 0 then 30 else 29,
   if (c >>> 8) &&& 1 ≠ 0 then 30 else 29,
   if (c >>> 7) &&& 1 ≠ 0 then 30 else 29,
   if (c >>> 6) &&& 1 ≠ 0 then 30 else 29,
   if (c >>> 5) &&& 1 ≠ 0 then 30 else 29,
   if (c >>> 4) &&& 1 ≠ 0 then 30 else 29]

/-- The 1-based position of a lunar month inside the decoded
month-length sequence of a year whose leap field is `L`. -/
def slotOf (L m : ℕ) (leap : Bool) : ℕ :=
  if leap then L + 1
  else if L = 0 ∨ m ≤ L then m
  else m + 1

/-! ### Gregorian year extraction -/

theorem daysBeforeYear_succ_ge (y : ℕ) : daysBeforeYear y + 365 ≤ daysBeforeYear (y + 1) := by
  unfold daysBeforeYear
  omega

theorem daysBeforeYear_mono {a b : ℕ} (h : a ≤ b) : daysBeforeYear a ≤ daysBeforeYear b := by
  induction b with
  | zero =>
    have ha : a = 0 := Nat.le_zero.mp h
    simp [ha]
  | succ n ih =>
    rcases Nat.eq_or_lt_of_le h with he | hlt
    · rw [he]
    · have h1 : a ≤ n := by omega
      have h2 := daysBeforeYear_succ_ge n
      have h3 := ih h1
      omega

theorem daysBeforeYear_lt {a b : ℕ} (h : a < b) : daysBeforeYear a < daysBeforeYear b := by
  have h1 := daysBeforeYear_succ_ge a
  have h2 : daysBeforeYear (a + 1) ≤ daysBeforeYear b := daysBeforeYear_mono h
  omega

theorem yearSearch_spec (ord : ℕ) :
    ∀ (fuel y : ℕ), daysBeforeYear y ≤ ord → ord < daysBeforeYear (y + fuel + 1) →
      daysBeforeYear (yearSearch ord fuel y) ≤ ord ∧
        ord < daysBeforeYear (yearSearch ord fuel y + 1) := by
  intro fuel
  induction fuel with
  | zero =>
    intro y h1 h2
    exact ⟨h1, by simpa using h2⟩
  | succ f ih =>
    intro y h1 h2
    rw [yearSearch]
    by_cases hb : daysBeforeYear (y + 1) ≤ ord
    · rw [if_pos hb]
      have h2' : ord < daysBeforeYear (y + 1 + f + 1) := by
        have he : y + 1 + f + 1 = y + (f + 1) + 1 := by omega
        rw [he]
        exact h2
      exact ih (y + 1) hb h2'
    · rw [if_neg hb]
      exact ⟨h1, by omega⟩

theorem yearOfN_spec (ord : ℕ) :
    daysBeforeYear (yearOfN ord) ≤ ord ∧ ord < daysBeforeYear (yearOfN ord + 1) := by
  apply yearSearch_spec
  · unfold daysBeforeYear
    omega
  · unfold daysBeforeYear
    omega

theorem yearOfN_mono {a b : ℕ} (h : a ≤ b) : yearOfN a ≤ yearOfN b := by
  by_contra hc
  have h1 := yearOfN_spec a
  have h2 := yearOfN_spec b
  have h3 : yearOfN b + 1 ≤ yearOfN a := by omega
  have h4 := daysBeforeYear_mono h3
  omega

theorem yearOfN_eq_of {y ord : ℕ} (h1 : daysBeforeYear y ≤ ord)
    (h2 : ord < daysBeforeYear (y + 1)) : yearOfN ord = y := by
  have hs := yearOfN_spec ord
  rcases Nat.lt_trichotomy (yearOfN ord) y with hlt | heq | hgt
  · have : yearOfN ord + 1 ≤ y := by omega
    have := daysBeforeYear_mono this
    omega
  · exact heq
  · have : y + 1 ≤ yearOfN ord := by omega
    have := daysBeforeYear_mono this
    omega

/-! ### Python indexing -/

theorem pyGet_nonneg {α : Type} (xs : List α) (i : ℤ) (h0 : 0 ≤ i) :
    pyGet xs i = xs.get? i.toNat := by
  unfold pyGet
  rw [if_pos h0]

theorem pyGet_nat_in (xs : List ℕ) (i : ℤ) (h0 : 0 ≤ i) (h1 : i < xs.length) :
    pyGet xs i = some (xs.getD i.toNat 0) := by
  rw [pyGet_nonneg xs i h0]
  have hlt : i.toNat < xs.length := by omega
  rw [List.getD_eq_getElem _ _ hlt, List.get?_eq_getElem?, List.getElem?_eq_getElem hlt]

theorem pyGet_neg_in (xs : List ℕ) (i : ℤ) (h0 : i < 0) (h1 : 0 ≤ i + xs.length) :
    pyGet xs i = some (xs.getD (i + xs.length).toNat 0) := by
  unfold pyGet
  rw [if_neg (by omega), if_pos h1]
  have hlt : (i + xs.length).toNat < xs.length := by omega
  rw [List.getD_eq_getElem _ _ hlt, List.get?_eq_getElem?, List.getElem?_eq_getElem hlt]

theorem pyGet_none_of_ge {α : Type} (xs : List α) (i : ℤ) (h : (xs.length : ℤ) ≤ i) :
    pyGet xs i = none := by
  unfold pyGet
  have h0 : 0 ≤ i := le_trans (by positivity) h
  rw [if_pos h0]
  exact List.get?_eq_none.mpr (by omega)

theorem pyGet_none_of_lt {α : Type} (xs : List α) (i : ℤ) (h : i + xs.length < 0) :
    pyGet xs i = none := by
  unfold pyGet
  rw [if_neg (by omega), if_neg (by omega)]

theorem pyTake_nonneg {α : Type} (xs : List α) (k : ℤ) (h : 0 ≤ k) :
    pyTake xs k = xs.take k.toNat := by
  unfold pyTake
  rw [if_pos h]

/-! ### Bit-level bridges -/

theorem and_one_ne_zero_iff (c k : ℕ) : ((c >>> k) &&& 1 ≠ 0) ↔ c.testBit k := by
  rcases Nat.mod_two_eq_zero_or_one (c >>> k) with h | h <;>
    simp [Nat.testBit, Nat.and_one_is_mod, h, Nat.shiftRight_eq_div_pow]

theorem and_one_eq_one_iff (c k : ℕ) : ((c >>> k) &&& 1 = 1) ↔ c.testBit k := by
  rcases Nat.mod_two_eq_zero_or_one (c >>> k) with h | h <;>
    simp [Nat.testBit, Nat.and_one_is_mod, h, Nat.shiftRight_eq_div_pow]

theorem shiftRight16_lt (c : ℕ) (h : c < 2 ^ 17) : c >>> 16 < 2 := by
  rw [Nat.shiftRight_eq_div_pow]
  omega

theorem shiftRight16_eq_one_iff (c : ℕ) (h : c < 2 ^ 17) : (c >>> 16 = 1) ↔ c.testBit 16 := by
  have h2 := shiftRight16_lt c h
  rw [← and_one_eq_one_iff]
  interval_cases h0 : c >>> 16 <;> simp [h0]

theorem shiftRight16_ne_zero_iff (c : ℕ) (h : c < 2 ^ 17) : (c >>> 16 ≠ 0) ↔ c.testBit 16 := by
  have h2 := shiftRight16_lt c h
  rw [← and_one_eq_one_iff]
  interval_cases h0 : c >>> 16 <;> simp [h0]

theorem and_fifteen_eq_mod (c : ℕ) : c &&& 0xF = c % 16 := by
  have := Nat.and_pow_two_sub_one_eq_mod c 4
  norm_num at this ⊢
  exact this

/-! ### Decode structure -/

theorem ite_bit (c k : ℕ) :
    (if (c >>> k) &&& 1 ≠ 0 then (30 : ℕ) else 29) = if c.testBit k then 30 else 29 := by
  by_cases h : c.testBit k
  · rw [if_pos h, if_pos ((and_one_ne_zero_iff c k).mpr h)]
  · rw [if_neg h, if_neg (fun hc => h ((and_one_ne_zero_iff c k).mp hc))]

theorem regList_length (c : ℕ) : (regList c).length = 12 := rfl

theorem decode_fold (c : ℕ) :
    (List.range' 4 12).foldl
      (fun acc i => (if (c >>> i) &&& 1 ≠ 0 then 30 else 29) :: acc) [] = regList c := rfl

theorem decode_eq (c : ℕ) (hL : c &&& 0xF ≤ 12) :
    decode c = if c &&& 0xF = 0 then regList c
      else (regList c).insertIdx (c &&& 0xF) (if c >>> 16 ≠ 0 then 30 else 29) := by
  unfold decode
  rw [decode_fold]
  by_cases h : c &&& 0xF = 0
  · simp [h]
  · rw [if_pos h, if_neg h, regList_length]
    have : min (c &&& 0xF) 12 = c &&& 0xF := by omega
    rw [this]

theorem insertIdx_eq_take_cons_drop {α : Type} (x : α) :
    ∀ (l : List α) (n : ℕ), n ≤ l.length → l.insertIdx n x = l.take n ++ x :: l.drop n := by
  intro l
  induction l with
  | nil =>
    intro n hn
    have : n = 0 := by simpa using hn
    simp [this]
  | cons hd tl ih =>
    intro n hn
    cases n with
    | zero => simp
    | succ m =>
      rw [List.insertIdx_succ_cons]
      have hm : m ≤ tl.length := by simpa using hn
      simp [ih m hm]

theorem regList_mem (c : ℕ) : ∀ x ∈ regList c, x = 29 ∨ x = 30 := by
  intro x hx
  fin_cases hx <;> (split <;> simp)

theorem decode_mem (c : ℕ) (hL : c &&& 0xF ≤ 12) : ∀ x ∈ decode c, x = 29 ∨ x = 30 := by
  intro x hx
  rw [decode_eq c hL] at hx
  by_cases h : c &&& 0xF = 0
  · rw [if_pos h] at hx
    exact regList_mem c x hx
  · rw [if_neg h] at hx
    rw [insertIdx_eq_take_cons_drop _ _ _ (by rw [regList_length]; omega)] at hx
    rcases List.mem_append.mp hx with h1 | h1
    · exact regList_mem c x (List.mem_of_mem_take h1)
    · rcases List.mem_cons.mp h1 with h2 | h2
      · rw [h2]
        split <;> simp
      · exact regList_mem c x (List.mem_of_mem_drop h2)

theorem decode_length (c : ℕ) (hL : c &&& 0xF ≤ 12) :
    (decode c).length = if c &&& 0xF = 0 then 12 else 13 := by
  rw [decode_eq c hL]
  by_cases h : c &&& 0xF = 0
  · simp [h, regList_length]
  · rw [if_neg h, if_neg h]
    rw [List.length_insertIdx _ _ (by rw [regList_length]; omega), regList_length]

/-! ### Prefix sums of the month-length sequence -/

theorem take_insertIdx_of_le {α : Type} (x : α) (l : List α) (n j : ℕ) (hn : n ≤ l.length)
    (hj : j ≤ n) : (l.insertIdx n x).take j = l.take j := by
  rw [insertIdx_eq_take_cons_drop x l n hn ]
  rw [List.take_append_eq_append_take]
  have hlen : (l.take n).length = n := List.length_take_of_le hn
  have hz : j - (l.take n).length = 0 := by omega
  rw [hz, List.take_zero, List.append_nil, List.take_take]
  have : min j n = j := by omega
  rw [this]

theorem sum_take_insertIdx_of_gt (x : ℕ) (l : List ℕ) (n j : ℕ) (hn : n ≤ l.length)
    (hj : n < j) : ((l.insertIdx n x).take j).sum = x + (l.take (j - 1)).sum := by
  rw [insertIdx_eq_take_cons_drop x l n hn]
  rw [List.take_append_eq_append_take]
  have hlen : (l.take n).length = n := List.length_take_of_le hn
  have htj : (l.take n).take j = l.take n := by
    rw [List.take_take]
    have : min j n = n := by omega
    rw [this]
  rw [htj, hlen]
  have hjn : j - n = (j - n - 1) + 1 := by omega
  rw [hjn, List.take_succ_cons, List.sum_append, List.sum_cons]
  have hs : (l.take (j - 1)).sum = (l.take n).sum + ((l.drop n).take (j - 1 - n)).sum := by
    conv_lhs => rw [show j - 1 = n + (j - 1 - n) from by omega]
    rw [List.take_add, List.sum_append]
  rw [hs, show j - n - 1 = j - 1 - n from by omega]
  omega

theorem sum_take_mono (l : List ℕ) {j k : ℕ} (h : j ≤ k) :
    (l.take j).sum ≤ (l.take k).sum := by
  have : k = j + (k - j) := by omega
  rw [this, List.take_add, List.sum_append]
  omega

theorem sum_take_succ_getD (l : List ℕ) (k : ℕ) (hk : k < l.length) :
    (l.take (k + 1)).sum = (l.take k).sum + l.getD k 0 := by
  rw [List.getD_eq_getElem _ _ hk]
  have := List.sum_take_succ l k hk
  simpa using this

theorem sum_take_length (l : List ℕ) : (l.take l.length).sum = l.sum := by
  rw [List.take_length]

/-! ### The accumulate-and-break loop -/

theorem findSlot_found :
    ∀ (xs : List ℕ) (dp : ℤ) (pos acc k : ℕ), k < xs.length →
      ((acc : ℤ) + ((xs.take k).sum : ℕ)) ≤ dp →
      dp < (acc : ℤ) + ((xs.take (k + 1)).sum : ℕ) →
      findSlot xs dp pos acc = some (pos + k, acc + (xs.take (k + 1)).sum, xs.getD k 0) := by
  intro xs
  induction xs with
  | nil =>
    intro dp pos acc k hk
    simp at hk
  | cons hd tl ih =>
    intro dp pos acc k hk h1 h2
    cases k with
    | zero =>
      rw [findSlot]
      have hcond : dp + 1 ≤ ((acc + hd : ℕ) : ℤ) := by
        simp [List.take_succ_cons] at h2
        push_cast at h2 ⊢
        omega
      simp only [hcond, if_pos]
      simp [List.take_succ_cons]
    | succ m =>
      rw [findSlot]
      rw [List.take_succ_cons, List.sum_cons] at h1 h2
      have hcond : ¬(dp + 1 ≤ ((acc + hd : ℕ) : ℤ)) := by omega
      simp only [hcond, if_neg, not_false_iff]
      have hm : m < tl.length := by simpa using hk
      have h1' : (((acc + hd : ℕ) : ℤ) + ((tl.take m).sum : ℕ)) ≤ dp := by
        push_cast at h1 ⊢
        omega
      have h2' : dp < (((acc + hd : ℕ) : ℤ) + ((tl.take (m + 1)).sum : ℕ)) := by
        push_cast at h2 ⊢
        omega
      have := ih dp (pos + 1) (acc + hd) m hm h1' h2'
      rw [this]
      have he1 : pos + 1 + m = pos + (m + 1) := by omega
      have he2 : acc + hd + (tl.take (m + 1)).sum = acc + ((hd :: tl).take (m + 1 + 1)).sum := by
        rw [List.take_succ_cons, List.sum_cons]
        omega
      rw [he1, he2]
      rfl

/-! ### Entries of the decoded sequence -/

theorem regList_getD (c m : ℕ) (h1 : 1 ≤ m) (h2 : m ≤ 12) :
    (regList c).getD (m - 1) 0 = if c.testBit (16 - m) then 30 else 29 := by
  interval_cases m <;>
    simp only [regList, List.getD, List.get?_eq_getElem?, List.getElem?_cons_zero,
      List.getElem?_cons_succ, Option.getD_some, ite_bit] ; rfl

theorem getD_insertIdx_of_lt (l : List ℕ) (x : ℕ) (n k : ℕ) (hn : k < n) (hk : k < l.length) :
    (l.insertIdx n x).getD k 0 = l.getD k 0 := by
  have hk2 : k < (l.insertIdx n x).length := by
    have := List.length_le_length_insertIdx l x n
    omega
  rw [List.getD_eq_getElem _ _ hk2, List.getD_eq_getElem _ _ hk]
  exact List.getElem_insertIdx_of_lt l x n k hn hk

theorem getD_insertIdx_self (l : List ℕ) (x : ℕ) (n : ℕ) (hn : n ≤ l.length) :
    (l.insertIdx n x).getD n 0 = x := by
  have hk2 : n < (l.insertIdx n x).length := by
    rw [List.length_insertIdx _ _ hn]
    omega
  rw [List.getD_eq_getElem _ _ hk2]
  exact List.getElem_insertIdx_self l x n hn

theorem getD_insertIdx_add_succ (l : List ℕ) (x : ℕ) (n k : ℕ) (hk : n + k < l.length) :
    (l.insertIdx n x).getD (n + k + 1) 0 = l.getD (n + k) 0 := by
  have hk2 : n + k + 1 < (l.insertIdx n x).length := by
    rw [List.length_insertIdx _ _ (by omega)]
    omega
  rw [List.getD_eq_getElem _ _ hk2, List.getD_eq_getElem _ _ hk]
  exact List.getElem_insertIdx_add_succ l x n k hk

theorem decode_getD_reg (c m : ℕ) (hL : c &&& 0xF ≤ 12) (h1 : 1 ≤ m) (h2 : m ≤ 12) :
    (decode c).getD (if c &&& 0xF = 0 ∨ m ≤ c &&& 0xF then m - 1 else m) 0 =
      (regList c).getD (m - 1) 0 := by
  rw [decode_eq c hL]
  by_cases h0 : c &&& 0xF = 0
  · simp [h0]
  · rw [if_neg h0]
    by_cases hm : m ≤ c &&& 0xF
    · rw [if_pos (Or.inr hm)]
      exact getD_insertIdx_of_lt _ _ _ _ (by omega) (by rw [regList_length]; omega)
    · rw [if_neg (show ¬(c &&& 0xF = 0 ∨ m ≤ c &&& 0xF) from by push_neg; omega)]
      have key := getD_insertIdx_add_succ (regList c) (if c >>> 16 ≠ 0 then 30 else 29)
        (c &&& 0xF) (m - 1 - (c &&& 0xF)) (by rw [regList_length]; omega)
      rw [show (c &&& 0xF) + (m - 1 - (c &&& 0xF)) + 1 = m from by omega,
        show (c &&& 0xF) + (m - 1 - (c &&& 0xF)) = m - 1 from by omega] at key
      exact key

theorem decode_getD_leap (c : ℕ) (hL0 : c &&& 0xF ≠ 0) (hL : c &&& 0xF ≤ 12) :
    (decode c).getD (c &&& 0xF) 0 = if c >>> 16 ≠ 0 then 30 else 29 := by
  rw [decode_eq c hL, if_neg hL0]
  exact getD_insertIdx_self _ _ _ (by rw [regList_length]; omega)

theorem decode_ge29 (c : ℕ) (hL : c &&& 0xF ≤ 12) : ∀ x ∈ decode c, 29 ≤ x := by
  intro x hx
  rcases decode_mem c hL x hx with h | h <;> omega

theorem decode_getD_ge29 (c : ℕ) (hL : c &&& 0xF ≤ 12) (k : ℕ) (hk : k < (decode c).length) :
    29 ≤ (decode c).getD k 0 := by
  apply decode_ge29 c hL
  rw [List.getD_eq_getElem _ _ hk]
  exact List.getElem_mem hk

/-! ### Characterisations of the validator -/

theorem validate_false_of_out (codes : List ℕ) (y m d : ℤ) (leap : Bool)
    (hr : ¬(1900 ≤ y ∧ y ≤ 2100 ∧ 1 ≤ m ∧ m ≤ 12 ∧ 1 ≤ d ∧ d ≤ 30)) :
    validate codes y m d leap = false := by
  unfold validate
  rw [if_pos hr]

theorem validate_nonleap_eq (codes : List ℕ) (hlen : codes.length = 201) (y m d : ℤ)
    (hr : 1900 ≤ y ∧ y ≤ 2100 ∧ 1 ≤ m ∧ m ≤ 12 ∧ 1 ≤ d ∧ d ≤ 30) :
    validate codes y m d false =
      (decide (d ≤ 29) ||
        decide (((codes.getD (y - 1900).toNat 0) >>> ((12 - m).toNat + 4)) &&& 1 = 1)) := by
  have hsome : pyGet codes (y - 1900) = some (codes.getD (y - 1900).toNat 0) :=
    pyGet_nat_in codes (y - 1900) (by omega) (by rw [hlen]; omega)
  unfold validate
  rw [if_neg (not_not_intro hr), hsome]
  by_cases hd : d ≤ 29
  · simp [hd]
  · have hd30 : d = 30 := by omega
    simp [hd, hd30]

theorem validate_leap_eq (codes : List ℕ) (hlen : codes.length = 201) (y m d : ℤ)
    (hr : 1900 ≤ y ∧ y ≤ 2100 ∧ 1 ≤ m ∧ m ≤ 12 ∧ 1 ≤ d ∧ d ≤ 30) :
    validate codes y m d true =
      (if ((codes.getD (y - 1900).toNat 0 &&& 0xF : ℕ) : ℤ) ≠ m then false
       else if d = 30 then decide ((codes.getD (y - 1900).toNat 0) >>> 16 = 1)
       else true) := by
  have hsome : pyGet codes (y - 1900) = some (codes.getD (y - 1900).toNat 0) :=
    pyGet_nat_in codes (y - 1900) (by omega) (by rw [hlen]; omega)
  unfold validate
  rw [if_neg (not_not_intro hr), hsome]
  rfl

theorem validate_true_elim (codes : List ℕ) (hlen : codes.length = 201) (y m d : ℤ)
    (leap : Bool) (hv : validate codes y m d leap = true) :
    1900 ≤ y ∧ y ≤ 2100 ∧ 1 ≤ m ∧ m ≤ 12 ∧ 1 ≤ d ∧ d ≤ 30 ∧
      (leap = true →
        ((codes.getD (y - 1900).toNat 0 &&& 0xF : ℕ) : ℤ) = m ∧
          (d = 30 → (codes.getD (y - 1900).toNat 0) >>> 16 = 1)) ∧
      (leap = false → d = 30 →
        ((codes.getD (y - 1900).toNat 0) >>> ((12 - m).toNat + 4)) &&& 1 = 1) := by
  by_cases hr : 1900 ≤ y ∧ y ≤ 2100 ∧ 1 ≤ m ∧ m ≤ 12 ∧ 1 ≤ d ∧ d ≤ 30
  · refine ⟨hr.1, hr.2.1, hr.2.2.1, hr.2.2.2.1, hr.2.2.2.2.1, hr.2.2.2.2.2, ?_, ?_⟩
    · intro hlp
      rw [hlp] at hv
      rw [validate_leap_eq codes hlen y m d hr] at hv
      by_cases he : ((codes.getD (y - 1900).toNat 0 &&& 0xF : ℕ) : ℤ) = m
      · refine ⟨he, ?_⟩
        intro hd30
        rw [if_neg (not_not_intro he), if_pos hd30] at hv
        exact of_decide_eq_true hv
      · rw [if_pos he] at hv
        exact absurd hv (by simp)
    · intro hlp hd30
      rw [hlp] at hv
      rw [validate_nonleap_eq codes hlen y m d hr] at hv
      have hnd : ¬(d ≤ 29) := by omega
      rw [decide_eq_false hnd, Bool.false_or] at hv
      exact of_decide_eq_true hv
  · rw [validate_false_of_out codes y m d leap hr] at hv
    exact absurd hv (by simp)

theorem validate_true_intro (codes : List ℕ) (hlen : codes.length = 201) (y m d : ℤ)
    (leap : Bool)
    (hr : 1900 ≤ y ∧ y ≤ 2100 ∧ 1 ≤ m ∧ m ≤ 12 ∧ 1 ≤ d ∧ d ≤ 30)
    (hlp : leap = true →
      ((codes.getD (y - 1900).toNat 0 &&& 0xF : ℕ) : ℤ) = m ∧
        (d = 30 → (codes.getD (y - 1900).toNat 0) >>> 16 = 1))
    (hnl : leap = false → d = 30 →
      ((codes.getD (y - 1900).toNat 0) >>> ((12 - m).toNat + 4)) &&& 1 = 1) :
    validate codes y m d leap = true := by
  cases leap with
  | false =>
    rw [validate_nonleap_eq codes hlen y m d hr]
    by_cases hd : d ≤ 29
    · simp [hd]
    · have hd30 : d = 30 := by omega
      rw [decide_eq_true (hnl rfl hd30), Bool.or_true]
  | true =>
    rw [validate_leap_eq codes hlen y m d hr]
    rcases hlp rfl with ⟨he, h30⟩
    rw [if_neg (not_not_intro he)]
    by_cases hd : d = 30
    · rw [if_pos hd]
      exact decide_eq_true (h30 hd)
    · rw [if_neg hd]

/-! ### Closed form of `__days_passed` -/

theorem days_passed_eq (T : LunarTable) (y m d : ℤ) (leap : Bool)
    (hm1 : 1 ≤ m) (hm2 : m ≤ 12)
    (hleap : leap = true → m = ((yearCodeOf T y &&& 0xF : ℕ) : ℤ)) :
    days_passed T ⟨y, m, d, leap⟩ =
      ((((decode (yearCodeOf T y)).take
          (slotOf (yearCodeOf T y &&& 0xF) m.toNat leap - 1)).sum : ℕ) : ℤ) + d - 1 := by
  simp only [days_passed]
  by_cases hA : ((yearCodeOf T y &&& 0xF : ℕ) : ℤ) = 0 ∨ m < ((yearCodeOf T y &&& 0xF : ℕ) : ℤ)
  · rw [if_pos hA]
    have hleapF : leap = false := by
      cases leap with
      | false => rfl
      | true =>
        have hm := hleap rfl
        rcases hA with h0 | hlt <;> omega
    have hslot : slotOf (yearCodeOf T y &&& 0xF) m.toNat leap - 1 = m.toNat - 1 := by
      rw [hleapF]
      unfold slotOf
      rcases hA with h0 | hlt
      · rw [if_neg (by simp), if_pos (Or.inl (by omega))]
      · rw [if_neg (by simp), if_pos (Or.inr (by omega))]
    rw [hslot, pyTake_nonneg _ _ (by omega),
      show (m - 1).toNat = m.toNat - 1 from by omega]
  · rw [if_neg hA]
    by_cases hB : ¬leap = true ∧ m = ((yearCodeOf T y &&& 0xF : ℕ) : ℤ)
    · rw [if_pos hB]
      have hleapF : leap = false := by
        cases leap with
        | false => rfl
        | true => exact absurd rfl hB.1
      have hslot : slotOf (yearCodeOf T y &&& 0xF) m.toNat leap - 1 = m.toNat - 1 := by
        rw [hleapF]
        unfold slotOf
        rw [if_neg (by simp), if_pos (Or.inr (by omega))]
      rw [hslot, pyTake_nonneg _ _ (by omega),
        show (m - 1).toNat = m.toNat - 1 from by omega]
    · rw [if_neg hB]
      have hslot : slotOf (yearCodeOf T y &&& 0xF) m.toNat leap - 1 = m.toNat := by
        unfold slotOf
        cases leap with
        | true =>
          rw [if_pos rfl]
          have hm := hleap rfl
          omega
        | false =>
          rw [if_neg (by simp)]
          push_neg at hA hB
          have hne := hB Bool.false_ne_true
          rw [if_neg (by push_neg; constructor <;> omega)]
          omega
      rw [hslot, pyTake_nonneg _ _ (by omega)]

/-! ### Table accessors under the spec invariants -/

theorem yearCodeOf_eq (T : LunarTable) (hlen : T.LUNARYEARCODE.length = 201) (y : ℤ)
    (h1 : 1900 ≤ y) (h2 : y ≤ 2100) :
    yearCodeOf T y = T.LUNARYEARCODE.getD (y - 1900).toNat 0 := by
  unfold yearCodeOf
  rw [pyGet_nat_in _ _ (by omega) (by rw [hlen]; omega)]
  rfl

theorem newYearOf_eq (T : LunarTable) (hlen : T.LUNARNEWYEAR.length = 201) (y : ℤ)
    (h1 : 1900 ≤ y) (h2 : y ≤ 2100) :
    newYearOf T y = T.LUNARNEWYEAR.getD (y - 1900).toNat 0 := by
  unfold newYearOf
  rw [pyGet_nat_in _ _ (by omega) (by rw [hlen]; omega)]
  rfl

theorem getD_mem_of_lt (xs : List ℕ) (i : ℕ) (h : i < xs.length) : xs.getD i 0 ∈ xs := by
  rw [List.getD_eq_getElem _ _ h]
  exact List.getElem_mem h

theorem spec_code_lt (T : LunarTable) (hT : SpecTable T) (y : ℤ)
    (h1 : 1900 ≤ y) (h2 : y ≤ 2100) : yearCodeOf T y < 2 ^ 17 := by
  rw [yearCodeOf_eq T hT.hcode_len y h1 h2]
  exact hT.hcode_lt _ (getD_mem_of_lt _ _ (by rw [hT.hcode_len]; omega))

theorem spec_leap_le (T : LunarTable) (hT : SpecTable T) (y : ℤ)
    (h1 : 1900 ≤ y) (h2 : y ≤ 2100) : yearCodeOf T y &&& 0xF ≤ 12 := by
  rw [yearCodeOf_eq T hT.hcode_len y h1 h2]
  exact hT.hleap_le _ (getD_mem_of_lt _ _ (by rw [hT.hcode_len]; omega))

theorem spec_ny_year (T : LunarTable) (hT : SpecTable T) (y : ℤ)
    (h1 : 1900 ≤ y) (h2 : y ≤ 2100) : yearOf ((newYearOf T y : ℕ) : ℤ) = y := by
  rw [newYearOf_eq T hT.hny_len y h1 h2]
  unfold yearOf
  rw [Int.toNat_natCast]
  have := hT.hny_year (y - 1900).toNat (by omega)
  rw [this]
  omega

theorem spec_ny_step (T : LunarTable) (hT : SpecTable T) (y : ℤ)
    (h1 : 1900 ≤ y) (h2 : y ≤ 2099) :
    (newYearOf T (y + 1) : ℕ) = (newYearOf T y : ℕ) + (decode (yearCodeOf T y)).sum := by
  rw [newYearOf_eq T hT.hny_len y h1 (by omega),
    newYearOf_eq T hT.hny_len (y + 1) (by omega) (by omega),
    yearCodeOf_eq T hT.hcode_len y h1 (by omega)]
  have := hT.hny_step (y - 1900).toNat (by omega)
  rw [show (y + 1 - 1900).toNat = (y - 1900).toNat + 1 from by omega]
  exact this

/-! ### The slot of a valid lunar date -/

theorem slot_bounds (L m : ℕ) (leap : Bool) (hm1 : 1 ≤ m) (hm2 : m ≤ 12)
    (hleap : leap = true → m = L) :
    1 ≤ slotOf L m leap ∧ slotOf L m leap ≤ (if L = 0 then 12 else 13) := by
  unfold slotOf
  cases leap with
  | true =>
    have hmL := hleap rfl
    rw [if_pos rfl]
    have hL0 : L ≠ 0 := by omega
    rw [if_neg hL0]
    omega
  | false =>
    rw [if_neg (by simp)]
    by_cases hc : L = 0 ∨ m ≤ L
    · rw [if_pos hc]
      rcases hc with h | h
      · rw [if_pos h]
        omega
      · by_cases h0 : L = 0
        · rw [if_pos h0]
          omega
        · rw [if_neg h0]
          omega
    · rw [if_neg hc]
      push_neg at hc
      rw [if_neg hc.1]
      omega

theorem slot_entry_value (c m : ℕ) (leap : Bool) (hL : c &&& 0xF ≤ 12)
    (hm1 : 1 ≤ m) (hm2 : m ≤ 12) (hleap : leap = true → m = c &&& 0xF) :
    (decode c).getD (slotOf (c &&& 0xF) m leap - 1) 0 =
      if leap then (if c >>> 16 ≠ 0 then 30 else 29)
      else (if c.testBit (16 - m) then 30 else 29) := by
  cases leap with
  | true =>
    have hm := hleap rfl
    have hL0 : c &&& 0xF ≠ 0 := by omega
    unfold slotOf
    rw [if_pos rfl, Nat.add_sub_cancel, decode_getD_leap c hL0 hL]
    simp
  | false =>
    unfold slotOf
    rw [if_neg (by simp)]
    have key := decode_getD_reg c m hL hm1 hm2
    rw [regList_getD c m hm1 hm2] at key
    by_cases hc : c &&& 0xF = 0 ∨ m ≤ c &&& 0xF
    · rw [if_pos hc]
      rw [if_pos hc] at key
      simpa using key
    · rw [if_neg hc]
      rw [if_neg hc] at key
      rw [show m + 1 - 1 = m from by omega]
      simpa using key

theorem yearOf_mono_int {a b : ℤ} (h : a ≤ b) : yearOf a ≤ yearOf b := by
  unfold yearOf
  have := yearOfN_mono (show a.toNat ≤ b.toNat by omega)
  omega

theorem pyGet_code (T : LunarTable) (hlen : T.LUNARYEARCODE.length = 201) (y : ℤ)
    (h1 : 1900 ≤ y) (h2 : y ≤ 2100) :
    pyGet T.LUNARYEARCODE (y - 1900) = some (yearCodeOf T y) := by
  rw [yearCodeOf_eq T hlen y h1 h2]
  exact pyGet_nat_in _ _ (by omega) (by rw [hlen]; omega)

theorem pyGet_ny (T : LunarTable) (hlen : T.LUNARNEWYEAR.length = 201) (y : ℤ)
    (h1 : 1900 ≤ y) (h2 : y ≤ 2100) :
    pyGet T.LUNARNEWYEAR (y - 1900) = some (newYearOf T y) := by
  rw [newYearOf_eq T hlen y h1 h2]
  exact pyGet_nat_in _ _ (by omega) (by rw [hlen]; omega)

theorem findSlot_found0 (xs : List ℕ) (dp : ℤ) (k : ℕ) (hk : k < xs.length)
    (h1 : (((xs.take k).sum : ℕ) : ℤ) ≤ dp) (h2 : dp < (((xs.take (k + 1)).sum : ℕ) : ℤ)) :
    findSlot xs dp 0 0 = some (k, (xs.take (k + 1)).sum, xs.getD k 0) := by
  have := findSlot_found xs dp 0 0 k hk (by push_cast at h1 ⊢; omega) (by push_cast at h2 ⊢; omega)
  simpa using this

theorem init_ok (T : LunarTable) (hcl : T.LUNARYEARCODE.length = 201)
    (hnl : T.LUNARNEWYEAR.length = 201) (y m d : ℤ) (leap : Bool)
    (h1 : 1900 ≤ y) (h2 : y ≤ 2100)
    (hv : validate T.LUNARYEARCODE y m d leap = true) :
    init T y m d leap = Except.ok ⟨y, m, d, leap⟩ := by
  unfold init
  rw [pyGet_code T hcl y h1 h2, pyGet_ny T hnl y h1 h2]
  simp only [hv, if_pos]

/-- Resolution of the candidate lunar year inside `from_datetime`: for a
date in the half-open span of lunar year `y`, the candidate-and-decrement
computation lands on `y`. -/
theorem resolve_year (T : LunarTable) (hT : SpecTable T) (y dt : ℤ)
    (h1 : 1900 ≤ y) (h2 : y ≤ 2100)
    (hlo : ((newYearOf T y : ℕ) : ℤ) ≤ dt)
    (hhi : dt < ((newYearOf T y : ℕ) : ℤ) + (((decode (yearCodeOf T y)).sum : ℕ) : ℤ))
    (hcov : yearOf dt ≤ 2100) :
    1900 ≤ yearOf dt ∧ yearOf dt ≤ 2100 ∧
      yearOf dt - (if 0 < ((newYearOf T (yearOf dt) : ℕ) : ℤ) - dt then 1 else 0) = y := by
  have hylo : y ≤ yearOf dt := by
    have hny := spec_ny_year T hT y h1 h2
    have := yearOf_mono_int hlo
    omega
  have hyhi : yearOf dt ≤ y + 1 := by
    by_cases hy99 : y ≤ 2099
    · have hstep := spec_ny_step T hT y h1 hy99
      have hstep' : ((newYearOf T (y + 1) : ℕ) : ℤ) =
          ((newYearOf T y : ℕ) : ℤ) + (((decode (yearCodeOf T y)).sum : ℕ) : ℤ) := by
        exact_mod_cast hstep
      have hn1 := spec_ny_year T hT (y + 1) (by omega) (by omega)
      have hmono : yearOf dt ≤ yearOf ((newYearOf T (y + 1) : ℕ) : ℤ) :=
        yearOf_mono_int (by omega)
      omega
    · omega
  refine ⟨by omega, hcov, ?_⟩
  by_cases hcase : yearOf dt = y
  · rw [hcase]
    rw [if_neg (by omega)]
    omega
  · have hy1 : yearOf dt = y + 1 := by omega
    have hy99 : y ≤ 2099 := by omega
    have hstep := spec_ny_step T hT y h1 hy99
    have hstep' : ((newYearOf T (y + 1) : ℕ) : ℤ) =
        ((newYearOf T y : ℕ) : ℤ) + (((decode (yearCodeOf T y)).sum : ℕ) : ℤ) := by
      exact_mod_cast hstep
    rw [hy1]
    rw [if_pos (by omega)]
    omega

/-! ### Reduction of `from_datetime` under the spec invariants -/

theorem from_datetime_eq_body (T : LunarTable) (hT : SpecTable T) (dt : ℤ)
    (hy0a : 1900 ≤ yearOf dt) (hy0b : yearOf dt ≤ 2100) :
    from_datetime T dt =
      from_body T
        (yearOf dt - (if 0 < ((newYearOf T (yearOf dt) : ℕ) : ℤ) - dt then 1 else 0)) dt := by
  unfold from_datetime
  rw [pyGet_ny T hT.hny_len (yearOf dt) hy0a hy0b]

theorem from_body_reduce (T : LunarTable) (hT : SpecTable T) (y dt : ℤ)
    (hy1 : 1900 ≤ y) (hy2 : y ≤ 2100)
    (k : ℕ) (hk : k < (decode (yearCodeOf T y)).length)
    (hk1 : ((((decode (yearCodeOf T y)).take k).sum : ℕ) : ℤ) ≤ dt - ((newYearOf T y : ℕ) : ℤ))
    (hk2 : dt - ((newYearOf T y : ℕ) : ℤ) <
      ((((decode (yearCodeOf T y)).take (k + 1)).sum : ℕ) : ℤ)) :
    from_body T y dt =
      init T y
        (if yearCodeOf T y &&& 0xF = 0 ∨
            ((k : ℤ) + 1) ≤ ((yearCodeOf T y &&& 0xF : ℕ) : ℤ)
          then (k : ℤ) + 1 else (k : ℤ) + 1 - 1)
        ((((decode (yearCodeOf T y)).getD k 0 : ℕ) : ℤ) -
          (((((decode (yearCodeOf T y)).take (k + 1)).sum : ℕ) : ℤ) -
            (dt - ((newYearOf T y : ℕ) : ℤ))) + 1)
        (decide (yearCodeOf T y &&& 0xF ≠ 0) &&
          decide ((k : ℤ) + 1 = ((yearCodeOf T y &&& 0xF : ℕ) : ℤ) + 1)) := by
  have hs := findSlot_found0 (decode (yearCodeOf T y)) (dt - ((newYearOf T y : ℕ) : ℤ))
    k hk hk1 hk2
  unfold from_body
  rw [pyGet_ny T hT.hny_len y hy1 hy2, pyGet_code T hT.hcode_len y hy1 hy2]
  dsimp only
  rw [hs]

theorem slot_entry_true (c m : ℕ) (hL : c &&& 0xF ≤ 12) (hm1 : 1 ≤ m) (hm2 : m ≤ 12)
    (hm : m = c &&& 0xF) :
    (decode c).getD (slotOf (c &&& 0xF) m true - 1) 0 = if c >>> 16 ≠ 0 then 30 else 29 := by
  have := slot_entry_value c m true hL hm1 hm2 (fun _ => hm)
  simpa using this

theorem slot_entry_false (c m : ℕ) (hL : c &&& 0xF ≤ 12) (hm1 : 1 ≤ m) (hm2 : m ≤ 12) :
    (decode c).getD (slotOf (c &&& 0xF) m false - 1) 0 =
      if c.testBit (16 - m) then 30 else 29 := by
  have := slot_entry_value c m false hL hm1 hm2 (fun h => absurd h Bool.false_ne_true)
  simpa using this

/-- Recovering the month number and leap flag from the found slot undoes
the `slotOf` mapping. -/
theorem slot_inverse (L : ℕ) (m : ℤ) (leap : Bool) (hm1 : 1 ≤ m) (hm2 : m ≤ 12)
    (hleap : leap = true → m = (L : ℤ)) :
    (if L = 0 ∨ ((slotOf L m.toNat leap - 1 : ℕ) : ℤ) + 1 ≤ (L : ℤ)
      then ((slotOf L m.toNat leap - 1 : ℕ) : ℤ) + 1
      else ((slotOf L m.toNat leap - 1 : ℕ) : ℤ) + 1 - 1) = m ∧
    (decide (L ≠ 0) && decide (((slotOf L m.toNat leap - 1 : ℕ) : ℤ) + 1 = (L : ℤ) + 1)) =
      leap := by
  cases leap with
  | true =>
    have hm := hleap rfl
    have hL0 : L ≠ 0 := by omega
    have hs : slotOf L m.toNat true = L + 1 := by
      unfold slotOf
      rw [if_pos rfl]
    rw [hs, Nat.add_sub_cancel]
    constructor
    · rw [if_neg (by push_neg; exact ⟨hL0, by omega⟩)]
      omega
    · rw [decide_eq_true hL0, decide_eq_true (rfl : ((L : ℕ) : ℤ) + 1 = ((L : ℕ) : ℤ) + 1)]
      rfl
  | false =>
    have hs : slotOf L m.toNat false =
        if L = 0 ∨ m.toNat ≤ L then m.toNat else m.toNat + 1 := by
      unfold slotOf
      rw [if_neg (by simp)]
    by_cases hc : L = 0 ∨ m.toNat ≤ L
    · rw [hs, if_pos hc]
      constructor
      · rw [if_pos (by rcases hc with h | h
                       · exact Or.inl h
                       · exact Or.inr (by omega))]
        omega
      · rcases hc with h0 | hml
        · rw [decide_eq_false (show ¬L ≠ 0 from by omega), Bool.false_and]
        · rw [decide_eq_false
            (show ¬(((m.toNat - 1 : ℕ) : ℤ) + 1 = (L : ℤ) + 1) from by omega), Bool.and_false]
    · push_neg at hc
      rw [hs, if_neg (show ¬(L = 0 ∨ m.toNat ≤ L) from by push_neg; exact hc),
        Nat.add_sub_cancel]
      constructor
      · rw [if_neg (by push_neg; exact ⟨hc.1, by omega⟩)]
        omega
      · rw [decide_eq_false
          (show ¬(((m.toNat : ℕ) : ℤ) + 1 = (L : ℤ) + 1) from by omega), Bool.and_false]

/-- Core inversion: feeding `from_body` the Gregorian ordinal obtained
from a valid lunar date's day offset returns exactly that lunar date. -/
theorem from_body_at_days (T : LunarTable) (hT : SpecTable T) (y m d : ℤ) (leap : Bool)
    (hv : validate T.LUNARYEARCODE y m d leap = true) :
    0 ≤ days_passed T ⟨y, m, d, leap⟩ ∧
      days_passed T ⟨y, m, d, leap⟩ < (((decode (yearCodeOf T y)).sum : ℕ) : ℤ) ∧
      from_body T y (((newYearOf T y : ℕ) : ℤ) + days_passed T ⟨y, m, d, leap⟩) =
        Except.ok ⟨y, m, d, leap⟩ := by
  obtain ⟨h1, h2, hm1, hm2, hd1, hd2, hlp, hnl⟩ :=
    validate_true_elim T.LUNARYEARCODE hT.hcode_len y m d leap hv
  have hcy : T.LUNARYEARCODE.getD (y - 1900).toNat 0 = yearCodeOf T y :=
    (yearCodeOf_eq T hT.hcode_len y h1 h2).symm
  rw [hcy] at hlp hnl
  have hL12 : yearCodeOf T y &&& 0xF ≤ 12 := spec_leap_le T hT y h1 h2
  set c := yearCodeOf T y with hc
  set L := c &&& 0xF with hLdef
  set md := decode c with hmd
  have hmlen : md.length = if L = 0 then 12 else 13 := decode_length c hL12
  have hleapN : leap = true → m = (L : ℤ) := fun h => (hlp h).1.symm
  have hleapNN : leap = true → m.toNat = L := fun h => by have := (hlp h).1; omega
  set s := slotOf L m.toNat leap with hs
  have hsb := slot_bounds L m.toNat leap (by omega) (by omega) hleapNN
  have hslen : s ≤ md.length := by
    by_cases h0 : L = 0
    · rw [hmlen, if_pos h0]
      have := hsb.2
      rw [if_pos h0] at this
      omega
    · rw [hmlen, if_neg h0]
      have := hsb.2
      rw [if_neg h0] at this
      omega
  have hs1 : 1 ≤ s := hsb.1
  have hdpe : days_passed T ⟨y, m, d, leap⟩ = (((md.take (s - 1)).sum : ℕ) : ℤ) + d - 1 :=
    days_passed_eq T y m d leap (by omega) (by omega) hleapN
  have hentry_le : d ≤ ((md.getD (s - 1) 0 : ℕ) : ℤ) := by
    cases leap with
    | true =>
      obtain ⟨hmeq, h30⟩ := hlp rfl
      have he := slot_entry_true c m.toNat hL12 (by omega) (by omega) (by omega)
      rw [← hs] at he
      by_cases hd30 : d = 30
      · rw [he, if_pos (show c >>> 16 ≠ 0 from by have := h30 hd30; omega)]
        omega
      · rw [he]
        split <;> omega
    | false =>
      have he := slot_entry_false c m.toNat hL12 (by omega) (by omega)
      rw [← hs] at he
      by_cases hd30 : d = 30
      · have hbit : c.testBit ((12 - m).toNat + 4) := (and_one_eq_one_iff c _).mp (hnl rfl hd30)
        rw [show (12 - m).toNat + 4 = 16 - m.toNat from by omega] at hbit
        rw [he, if_pos hbit]
        omega
      · rw [he]
        split <;> omega
  have hcum : (md.take s).sum = (md.take (s - 1)).sum + md.getD (s - 1) 0 := by
    conv_lhs => rw [show s = (s - 1) + 1 from by omega]
    exact sum_take_succ_getD md (s - 1) (by omega)
  have htot : (md.take s).sum ≤ md.sum := by
    have h := sum_take_mono md hslen
    rwa [sum_take_length] at h
  have hk1 : (((md.take (s - 1)).sum : ℕ) : ℤ) ≤
      (((newYearOf T y : ℕ) : ℤ) + days_passed T ⟨y, m, d, leap⟩) -
        ((newYearOf T y : ℕ) : ℤ) := by
    rw [hdpe]
    omega
  have hk2 : (((newYearOf T y : ℕ) : ℤ) + days_passed T ⟨y, m, d, leap⟩) -
      ((newYearOf T y : ℕ) : ℤ) < (((md.take (s - 1 + 1)).sum : ℕ) : ℤ) := by
    rw [show s - 1 + 1 = s from by omega, hdpe]
    omega
  refine ⟨by rw [hdpe]; omega, by rw [hdpe]; omega, ?_⟩
  rw [from_body_reduce T hT y _ h1 h2 (s - 1)
    (show s - 1 < (decode (yearCodeOf T y)).length from by rw [← hc, ← hmd]; omega) hk1 hk2]
  rw [← hc, ← hLdef, ← hmd]
  obtain ⟨hmon, hlpb⟩ := slot_inverse L m leap (by omega) (by omega) hleapN
  rw [← hs] at hmon hlpb
  rw [hmon, hlpb]
  have hday : ((md.getD (s - 1) 0 : ℕ) : ℤ) -
      ((((md.take (s - 1 + 1)).sum : ℕ) : ℤ) -
        ((((newYearOf T y : ℕ) : ℤ) + days_passed T ⟨y, m, d, leap⟩) -
          ((newYearOf T y : ℕ) : ℤ))) + 1 = d := by
    rw [show s - 1 + 1 = s from by omega, hdpe]
    omega
  rw [hday]
  exact init_ok T hT.hcode_len hT.hny_len y m d leap h1 h2 hv

/-! ### Existence of a slot for every in-range day offset -/

theorem exists_slot (xs : List ℕ) (dp : ℤ) (h0 : 0 ≤ dp) (hdp : dp < ((xs.sum : ℕ) : ℤ)) :
    ∃ k : ℕ, k < xs.length ∧ (((xs.take k).sum : ℕ) : ℤ) ≤ dp ∧
      dp < (((xs.take (k + 1)).sum : ℕ) : ℤ) := by
  induction xs generalizing dp with
  | nil =>
    simp at hdp
    omega
  | cons a tl ih =>
    by_cases ha : dp < (a : ℤ)
    · refine ⟨0, by simp, by simpa using h0, ?_⟩
      rw [List.take_succ_cons, List.take_zero, List.sum_cons, List.sum_nil]
      omega
    · push_neg at ha
      rw [List.sum_cons] at hdp
      obtain ⟨k, hk, hk1, hk2⟩ := ih (dp - (a : ℤ)) (by omega) (by omega)
      refine ⟨k + 1, by simpa using hk, ?_, ?_⟩
      · rw [List.take_succ_cons, List.sum_cons]
        omega
      · rw [List.take_succ_cons, List.sum_cons]
        omega

/-- Every in-range day offset arises from a (unique) slot, which yields
a valid lunar date whose day offset is exactly that value; the month,
day and leap flag are the slot-to-month mapping of `from_datetime`. -/
theorem exists_valid_at_dp (T : LunarTable) (hT : SpecTable T) (y : ℤ)
    (h1 : 1900 ≤ y) (h2 : y ≤ 2100) (dp : ℤ) (h0 : 0 ≤ dp)
    (hdp : dp < (((decode (yearCodeOf T y)).sum : ℕ) : ℤ)) :
    ∃ k : ℕ, k < (decode (yearCodeOf T y)).length ∧
      ((((decode (yearCodeOf T y)).take k).sum : ℕ) : ℤ) ≤ dp ∧
      dp < ((((decode (yearCodeOf T y)).take (k + 1)).sum : ℕ) : ℤ) ∧
      validate T.LUNARYEARCODE y
        (if yearCodeOf T y &&& 0xF = 0 ∨ ((k : ℤ) + 1) ≤ ((yearCodeOf T y &&& 0xF : ℕ) : ℤ)
          then (k : ℤ) + 1 else (k : ℤ))
        (dp - ((((decode (yearCodeOf T y)).take k).sum : ℕ) : ℤ) + 1)
        (decide (yearCodeOf T y &&& 0xF ≠ 0) &&
          decide ((k : ℤ) + 1 = ((yearCodeOf T y &&& 0xF : ℕ) : ℤ) + 1)) = true ∧
      days_passed T ⟨y,
        if yearCodeOf T y &&& 0xF = 0 ∨ ((k : ℤ) + 1) ≤ ((yearCodeOf T y &&& 0xF : ℕ) : ℤ)
          then (k : ℤ) + 1 else (k : ℤ),
        dp - ((((decode (yearCodeOf T y)).take k).sum : ℕ) : ℤ) + 1,
        decide (yearCodeOf T y &&& 0xF ≠ 0) &&
          decide ((k : ℤ) + 1 = ((yearCodeOf T y &&& 0xF : ℕ) : ℤ) + 1)⟩ = dp := by
  obtain ⟨k, hk, hk1, hk2⟩ := exists_slot (decode (yearCodeOf T y)) dp h0 hdp
  refine ⟨k, hk, hk1, hk2, ?_⟩
  have hL12 : yearCodeOf T y &&& 0xF ≤ 12 := spec_leap_le T hT y h1 h2
  have hclt : yearCodeOf T y < 2 ^ 17 := spec_code_lt T hT y h1 h2
  set c := yearCodeOf T y with hc
  set L := c &&& 0xF with hLdef
  set md := decode c with hmd
  have hmlen : md.length = if L = 0 then 12 else 13 := decode_length c hL12
  have hcum1 : (md.take (k + 1)).sum = (md.take k).sum + md.getD k 0 :=
    sum_take_succ_getD md k hk
  have hent_mem : md.getD k 0 = 29 ∨ md.getD k 0 = 30 :=
    decode_mem c hL12 _ (getD_mem_of_lt md k hk)
  have hklen : (L = 0 → k < 12) ∧ (L ≠ 0 → k < 13) := by
    constructor <;> intro hx <;> [rw [hmlen, if_pos hx] at hk; rw [hmlen, if_neg hx] at hk] <;>
      omega
  set mval : ℤ := if L = 0 ∨ ((k : ℤ) + 1) ≤ ((L : ℕ) : ℤ) then (k : ℤ) + 1 else (k : ℤ)
    with hmval
  set dval : ℤ := dp - (((md.take k).sum : ℕ) : ℤ) + 1 with hdval
  set lval : Bool := decide (L ≠ 0) && decide ((k : ℤ) + 1 = ((L : ℕ) : ℤ) + 1) with hlval
  clear_value mval dval lval
  have hm_bounds : 1 ≤ mval ∧ mval ≤ 12 := by
    rw [hmval]
    by_cases hcnd : L = 0 ∨ ((k : ℤ) + 1) ≤ ((L : ℕ) : ℤ)
    · rw [if_pos hcnd]
      rcases hcnd with h | h
      · have := hklen.1 h
        omega
      · omega
    · rw [if_neg hcnd]
      push_neg at hcnd
      omega
  have hd_bounds : 1 ≤ dval ∧ dval ≤ ((md.getD k 0 : ℕ) : ℤ) := by
    rw [hdval]
    omega
  have hlval_t : lval = true → L ≠ 0 ∧ k = L := by
    intro hx
    rw [hlval] at hx
    have hx' : L ≠ 0 ∧ (k : ℤ) + 1 = ((L : ℕ) : ℤ) + 1 := by simpa using hx
    exact ⟨hx'.1, by omega⟩
  have hlval_f : lval = false → L = 0 ∨ k ≠ L := by
    intro hx
    by_cases hL0 : L = 0
    · exact Or.inl hL0
    · refine Or.inr ?_
      intro hkl
      rw [hlval, decide_eq_true hL0, decide_eq_true (show (k : ℤ) + 1 = ((L : ℕ) : ℤ) + 1 from
        by omega)] at hx
      simp at hx
  have hslot : slotOf L mval.toNat lval = k + 1 := by
    cases hlv : lval with
    | true =>
      obtain ⟨hL0, hkl⟩ := hlval_t hlv
      unfold slotOf
      rw [if_pos rfl]
      omega
    | false =>
      unfold slotOf
      rw [if_neg (by simp)]
      by_cases hcnd : L = 0 ∨ ((k : ℤ) + 1) ≤ ((L : ℕ) : ℤ)
      · have hmv : mval = (k : ℤ) + 1 := by rw [hmval, if_pos hcnd]
        rw [if_pos (by rcases hcnd with h | h
                       · exact Or.inl h
                       · exact Or.inr (by omega))]
        omega
      · have hmv : mval = (k : ℤ) := by rw [hmval, if_neg hcnd]
        push_neg at hcnd
        have hkl : k ≠ L := by
          rcases hlval_f hlv with h | h
          · exact absurd h hcnd.1
          · exact h
        rw [if_neg (show ¬(L = 0 ∨ mval.toNat ≤ L) from by push_neg; exact ⟨hcnd.1, by omega⟩)]
        omega
  have hvalid : validate T.LUNARYEARCODE y mval dval lval = true := by
    apply validate_true_intro T.LUNARYEARCODE hT.hcode_len y mval dval lval
      ⟨h1, h2, hm_bounds.1, hm_bounds.2, hd_bounds.1, by
        rcases hent_mem with h | h <;> omega⟩
    · intro hlv
      obtain ⟨hL0, hkl⟩ := hlval_t hlv
      rw [← yearCodeOf_eq T hT.hcode_len y h1 h2, ← hc, ← hLdef]
      constructor
      · rw [hmval, if_neg (by push_neg; omega)]
        omega
      · intro hd30
        have hent30 : md.getD k 0 = 30 := by omega
        have hleapent := decode_getD_leap c hL0 hL12
        rw [← hmd, ← hLdef, ← hkl] at hleapent
        rw [hleapent] at hent30
        have h16 : c >>> 16 ≠ 0 := by
          intro hz
          rw [if_neg (not_not_intro hz)] at hent30
          omega
        have := shiftRight16_lt c hclt
        omega
    · intro hlv hd30
      rw [← yearCodeOf_eq T hT.hcode_len y h1 h2, ← hc]
      have hent30 : md.getD k 0 = 30 := by omega
      by_cases hcnd : L = 0 ∨ ((k : ℤ) + 1) ≤ ((L : ℕ) : ℤ)
      · have hmv : mval = (k : ℤ) + 1 := by rw [hmval, if_pos hcnd]
        have hreg := decode_getD_reg c (k + 1) hL12 (by omega) (by
          rcases hcnd with h | h
          · have := hklen.1 h
            omega
          · omega)
        rw [← hLdef, ← hmd, if_pos (by rcases hcnd with h | h
                                       · exact Or.inl h
                                       · exact Or.inr (by omega)),
          Nat.add_sub_cancel] at hreg
        have hrg := regList_getD c (k + 1) (by omega) (by
          rcases hcnd with h | h
          · have := hklen.1 h
            omega
          · omega)
        rw [Nat.add_sub_cancel] at hrg
        rw [hreg, hrg] at hent30
        have hbit : c.testBit (16 - (k + 1)) := by
          by_contra hb
          rw [if_neg hb] at hent30
          omega
        rw [show (12 - mval).toNat + 4 = 16 - (k + 1) from by omega]
        exact (and_one_eq_one_iff c _).mpr hbit
      · have hmv : mval = (k : ℤ) := by rw [hmval, if_neg hcnd]
        push_neg at hcnd
        have hkl : k ≠ L := by
          rcases hlval_f hlv with h | h
          · exact absurd h hcnd.1
          · exact h
        have hkgt : L < k := by omega
        have hreg := decode_getD_reg c k hL12 (by omega) (by
          have := hklen.2 hcnd.1
          omega)
        rw [← hLdef, ← hmd,
          if_neg (show ¬(L = 0 ∨ k ≤ L) from by push_neg; exact ⟨hcnd.1, by omega⟩)] at hreg
        rw [hreg, regList_getD c k (by omega) (by
          have := hklen.2 hcnd.1
          omega)] at hent30
        have hbit : c.testBit (16 - k) := by
          by_contra hb
          rw [if_neg hb] at hent30
          omega
        rw [show (12 - mval).toNat + 4 = 16 - k from by omega]
        exact (and_one_eq_one_iff c _).mpr hbit
  refine ⟨hvalid, ?_⟩
  have hdpe := days_passed_eq T y mval dval lval hm_bounds.1 hm_bounds.2 (by
    intro hlv
    obtain ⟨hL0, hkl⟩ := hlval_t hlv
    rw [← hc, ← hLdef, hmval, if_neg (by push_neg; omega)]
    omega)
  rw [← hc, ← hLdef, ← hmd, hslot, Nat.add_sub_cancel] at hdpe
  rw [hdpe]
  omega

/-- Downward search: every date at or after New Year 1900 and before the
end of some covered lunar year lies in the span of a covered lunar
year. -/
theorem find_lunar_year_aux (T : LunarTable) (hT : SpecTable T) (dt : ℤ)
    (hlo : ((newYearOf T 1900 : ℕ) : ℤ) ≤ dt) :
    ∀ n : ℕ, n ≤ 200 →
      dt < ((newYearOf T (1900 + (n : ℤ)) : ℕ) : ℤ) +
        (((decode (yearCodeOf T (1900 + (n : ℤ)))).sum : ℕ) : ℤ) →
      ∃ y : ℤ, 1900 ≤ y ∧ y ≤ 1900 + (n : ℤ) ∧ ((newYearOf T y : ℕ) : ℤ) ≤ dt ∧
        dt < ((newYearOf T y : ℕ) : ℤ) + (((decode (yearCodeOf T y)).sum : ℕ) : ℤ) := by
  intro n
  induction n with
  | zero =>
    intro _ hhi
    exact ⟨1900, by omega, by omega, by simpa using hlo, by simpa using hhi⟩
  | succ p ih =>
    intro hp hhi
    rw [show (1900 : ℤ) + (((p + 1 : ℕ)) : ℤ) = 1900 + (p : ℤ) + 1 from by push_cast; ring]
      at hhi
    by_cases hcase : ((newYearOf T (1900 + (p : ℤ) + 1) : ℕ) : ℤ) ≤ dt
    · exact ⟨1900 + (p : ℤ) + 1, by omega, by push_cast; omega, hcase, hhi⟩
    · push_neg at hcase
      have hstep := spec_ny_step T hT (1900 + (p : ℤ)) (by omega) (by omega)
      have hstep' : ((newYearOf T (1900 + (p : ℤ) + 1) : ℕ) : ℤ) =
          ((newYearOf T (1900 + (p : ℤ)) : ℕ) : ℤ) +
            (((decode (yearCodeOf T (1900 + (p : ℤ)))).sum : ℕ) : ℤ) := by
        exact_mod_cast hstep
      obtain ⟨y, hy1, hy2, hy3, hy4⟩ := ih (by omega) (by omega)
      exact ⟨y, hy1, by push_cast; omega, hy3, hy4⟩

theorem find_lunar_year (T : LunarTable) (hT : SpecTable T) (dt : ℤ)
    (hlo : ((newYearOf T 1900 : ℕ) : ℤ) ≤ dt)
    (hhi : dt < ((newYearOf T 2100 : ℕ) : ℤ) + (((decode (yearCodeOf T 2100)).sum : ℕ) : ℤ)) :
    ∃ y : ℤ, 1900 ≤ y ∧ y ≤ 2100 ∧ ((newYearOf T y : ℕ) : ℤ) ≤ dt ∧
      dt < ((newYearOf T y : ℕ) : ℤ) + (((decode (yearCodeOf T y)).sum : ℕ) : ℤ) := by
  obtain ⟨y, hy1, hy2, hy3, hy4⟩ := find_lunar_year_aux T hT dt hlo 200 (le_refl 200)
    (by rw [show (1900 : ℤ) + ((200 : ℕ) : ℤ) = 2100 from by norm_num]; exact hhi)
  exact ⟨y, hy1, by omega, hy3, hy4⟩

/-- The mock Year Table satisfies every invariant the specification
states for the real table data. -/
theorem mockTable_spec : SpecTable mockTable :=
  ⟨by decide, by decide, by decide, by decide, by decide, by decide⟩

/-! ### Inversion of successful construction -/

theorem init_ok_inv (T : LunarTable) (y m d : ℤ) (leap : Bool) (z : ZhDate)
    (h : init T y m d leap = Except.ok z) : z = ⟨y, m, d, leap⟩ := by
  unfold init at h
  split at h
  · exact absurd h (by simp)
  · split at h
    · exact absurd h (by simp)
    · split at h
      · exact (Except.ok.inj h).symm
      · exact absurd h (by simp)

theorem from_body_ok_year (T : LunarTable) (ly dt : ℤ) (z : ZhDate)
    (h : from_body T ly dt = Except.ok z) : z.lunar_year = ly := by
  unfold from_body at h
  split at h
  · exact absurd h (by simp)
  · split at h
    · exact absurd h (by simp)
    · split at h
      · exact absurd h (by simp)
      · have hz := init_ok_inv _ _ _ _ _ _ h
        rw [hz]

theorem decode_sum_pos (c : ℕ) (hL : c &&& 0xF ≤ 12) : 1 ≤ (decode c).sum := by
  have hlen := decode_length c hL
  have hk : 0 < (decode c).length := by
    by_cases h0 : c &&& 0xF = 0
    · rw [hlen, if_pos h0]
      omega
    · rw [hlen, if_neg h0]
      omega
  have h29 := decode_getD_ge29 c hL 0 hk
  have hc1 : ((decode c).take 1).sum = ((decode c).take 0).sum + (decode c).getD 0 0 :=
    sum_take_succ_getD _ 0 hk
  have hmono := sum_take_mono (decode c) (show 1 ≤ (decode c).length from hk)
  rw [sum_take_length] at hmono
  simp only [List.take_zero, List.sum_nil] at hc1
  omega

/-! ### The claims -/

/-- C3: for every packed year code (its fields occupying bits 0-16 and
its leap field at most 12, per the data model), the twelve regular
entries correspond to bits 4..15 with month 1 mapped to bit 15 and
month 12 mapped to bit 4 (30 if the bit is set, else 29); when the low
4 bits `L` are nonzero exactly one extra entry is inserted at 0-based
position `L`, worth 30 iff bit 16 is set, making the length 13; with
`L = 0` the length is 12; every entry is 29 or 30. -/
theorem decode_spec_claim (c : ℕ) (hc : c < 2 ^ 17) (hL : c &&& 0xF ≤ 12) :
    (∀ m : ℕ, 1 ≤ m → m ≤ 12 →
      (regList c).getD (m - 1) 0 = if c.testBit ((12 - m) + 4) then 30 else 29) ∧
    (c &&& 0xF = 0 → decode c = regList c ∧ (decode c).length = 12) ∧
    (c &&& 0xF ≠ 0 →
      decode c = (regList c).insertIdx (c &&& 0xF) (if c.testBit 16 then 30 else 29) ∧
        (decode c).length = 13) ∧
    (∀ x ∈ decode c, x = 29 ∨ x = 30) := by
  refine ⟨?_, ?_, ?_, decode_mem c hL⟩
  · intro m h1 h2
    have h := regList_getD c m h1 h2
    rw [show 16 - m = (12 - m) + 4 from by omega] at h
    exact h
  · intro h0
    constructor
    · rw [decode_eq c hL, if_pos h0]
    · rw [decode_length c hL, if_pos h0]
  · intro h0
    constructor
    · rw [decode_eq c hL, if_neg h0]
      congr 1
      by_cases hb : c.testBit 16
      · rw [if_pos hb, if_pos ((shiftRight16_ne_zero_iff c hc).mpr hb)]
      · rw [if_neg hb, if_neg (fun hx => hb ((shiftRight16_ne_zero_iff c hc).mp hx))]
    · rw [decode_length c hL, if_neg h0]

theorem decode_spec_claim_witness :
    (0x1AAA6 : ℕ) < 2 ^ 17 ∧ (0x1AAA6 : ℕ) &&& 0xF ≤ 12 ∧
      (∀ x ∈ decode 0x1AAA6, x = 29 ∨ x = 30) ∧ (decode 0x1AAA6).length = 13 :=
  ⟨by decide, by decide, (decode_spec_claim 0x1AAA6 (by decide) (by decide)).2.2.2,
    ((decode_spec_claim 0x1AAA6 (by decide) (by decide)).2.2.1 (by decide)).2⟩

/-- C7: the validator's day-30 bit test for a regular month agrees with
the codec: bit `(12 - m) + 4` of the code is set iff the decoded entry
of regular month `m` (at index `m - 1` when the leap field `L` is zero
or `m ≤ L`, at index `m` when `m > L`) equals 30. -/
theorem validate_decode_consistency_claim (c m : ℕ) (hL : c &&& 0xF ≤ 12)
    (hm1 : 1 ≤ m) (hm2 : m ≤ 12) :
    ((c >>> ((12 - m) + 4)) &&& 1 = 1) ↔
      (decode c).getD (if c &&& 0xF = 0 ∨ m ≤ c &&& 0xF then m - 1 else m) 0 = 30 := by
  rw [decode_getD_reg c m hL hm1 hm2, regList_getD c m hm1 hm2,
    show (12 - m) + 4 = 16 - m from by omega, and_one_eq_one_iff]
  by_cases hb : c.testBit (16 - m)
  · rw [if_pos hb]
    simp [hb]
  · rw [if_neg hb]
    simp [hb]

theorem validate_decode_consistency_claim_witness :
    (((0x1AAA6 : ℕ) >>> ((12 - 1) + 4)) &&& 1 = 1) ↔
      (decode 0x1AAA6).getD (if (0x1AAA6 : ℕ) &&& 0xF = 0 ∨ 1 ≤ (0x1AAA6 : ℕ) &&& 0xF
        then 1 - 1 else 1) 0 = 30 :=
  validate_decode_consistency_claim 0x1AAA6 1 (by decide) (by decide) (by decide)

/-- C4: with the 201-entry table, for in-range `(year, month, day)` and
`leap = false` the validator accepts days up to 29 outright and accepts
day 30 iff bit `(12 - month) + 4` of the year's packed code is set;
out-of-range arguments are always rejected. -/
theorem validate_regular_claim (codes : List ℕ) (hlen : codes.length = 201) (y m d : ℤ) :
    ((1900 ≤ y ∧ y ≤ 2100 ∧ 1 ≤ m ∧ m ≤ 12 ∧ 1 ≤ d ∧ d ≤ 30) →
      validate codes y m d false =
        (decide (d ≤ 29) ||
          decide ((codes.getD (y - 1900).toNat 0).testBit ((12 - m).toNat + 4)))) ∧
    (¬(1900 ≤ y ∧ y ≤ 2100 ∧ 1 ≤ m ∧ m ≤ 12 ∧ 1 ≤ d ∧ d ≤ 30) →
      validate codes y m d false = false) := by
  constructor
  · intro hr
    rw [validate_nonleap_eq codes hlen y m d hr]
    congr 1
    rw [decide_eq_decide]
    exact and_one_eq_one_iff _ _
  · intro hr
    exact validate_false_of_out codes y m d false hr

theorem validate_regular_claim_witness :
    validate mockTable.LUNARYEARCODE 1905 2 30 false =
      (decide ((30 : ℤ) ≤ 29) ||
        decide ((mockTable.LUNARYEARCODE.getD ((1905 : ℤ) - 1900).toNat 0).testBit
          ((12 - (2 : ℤ)).toNat + 4))) ∧
      validate mockTable.LUNARYEARCODE 1905 0 5 false = false :=
  ⟨(validate_regular_claim mockTable.LUNARYEARCODE (by decide) 1905 2 30).1 (by decide),
    (validate_regular_claim mockTable.LUNARYEARCODE (by decide) 1905 0 5).2 (by decide)⟩

/-- C5: with the 201-entry table of codes whose fields occupy bits 0-16,
for in-range `(year, month, day)` and `leap = true` the validator
rejects whenever the code's leap field differs from the month, and when
it matches accepts day ≤ 29 outright and day 30 iff bit 16 (the
leap-month-length bit) is set. -/
theorem validate_leap_claim (codes : List ℕ) (hlen : codes.length = 201)
    (hlt : ∀ c ∈ codes, c < 2 ^ 17) (y m d : ℤ)
    (hr : 1900 ≤ y ∧ y ≤ 2100 ∧ 1 ≤ m ∧ m ≤ 12 ∧ 1 ≤ d ∧ d ≤ 30) :
    (((codes.getD (y - 1900).toNat 0 &&& 0xF : ℕ) : ℤ) ≠ m →
      validate codes y m d true = false) ∧
    (((codes.getD (y - 1900).toNat 0 &&& 0xF : ℕ) : ℤ) = m →
      validate codes y m d true =
        (decide (d ≤ 29) || decide ((codes.getD (y - 1900).toNat 0).testBit 16))) := by
  have hclt : codes.getD (y - 1900).toNat 0 < 2 ^ 17 :=
    hlt _ (getD_mem_of_lt _ _ (by rw [hlen]; omega))
  constructor
  · intro hne
    rw [validate_leap_eq codes hlen y m d hr, if_pos hne]
  · intro heq
    rw [validate_leap_eq codes hlen y m d hr, if_neg (not_not_intro heq)]
    by_cases hd30 : d = 30
    · rw [if_pos hd30]
      have hnd : ¬(d ≤ 29) := by omega
      rw [decide_eq_false hnd, Bool.false_or, decide_eq_decide]
      exact shiftRight16_eq_one_iff _ hclt
    · rw [if_neg hd30]
      have hd29 : d ≤ 29 := by omega
      rw [decide_eq_true hd29, Bool.true_or]

theorem validate_leap_claim_witness :
    (((mockTable.LUNARYEARCODE.getD ((1901 : ℤ) - 1900).toNat 0 &&& 0xF : ℕ) : ℤ) = 6 →
      validate mockTable.LUNARYEARCODE 1901 6 30 true =
        (decide ((30 : ℤ) ≤ 29) ||
          decide ((mockTable.LUNARYEARCODE.getD ((1901 : ℤ) - 1900).toNat 0).testBit 16))) ∧
    (((mockTable.LUNARYEARCODE.getD ((1901 : ℤ) - 1900).toNat 0 &&& 0xF : ℕ) : ℤ) ≠ 5 →
      validate mockTable.LUNARYEARCODE 1901 5 10 true = false) :=
  ⟨(validate_leap_claim mockTable.LUNARYEARCODE (by decide) (by decide) 1901 6 30
      (by decide)).2,
    (validate_leap_claim mockTable.LUNARYEARCODE (by decide) (by decide) 1901 5 10
      (by decide)).1⟩

/-- C6 (amended): for every input whose table lookups succeed — years
1699..2100 against the 201-entry table, because Python's negative
indexing makes years 1699..1899 wrap instead of failing — construction
raises the `InvalidLunarDate` rejection (a `TypeError`) iff `validate`
returns false, and when `validate` returns true construction succeeds
with the four fields equal to the inputs.  For years outside that span
the lookup itself raises `IndexError` before validation, so the
unrestricted claim fails (see the counterexample). -/
theorem init_validate_claim (T : LunarTable) (h1 : T.LUNARYEARCODE.length = 201)
    (h2 : T.LUNARNEWYEAR.length = 201) (y m d : ℤ) (leap : Bool)
    (hy : 1699 ≤ y ∧ y ≤ 2100) :
    (init T y m d leap = Except.error PyError.typeError ↔
      validate T.LUNARYEARCODE y m d leap = false) ∧
    (validate T.LUNARYEARCODE y m d leap = true →
      init T y m d leap = Except.ok ⟨y, m, d, leap⟩) := by
  have hv1 : ∃ v, pyGet T.LUNARYEARCODE (y - 1900) = some v := by
    by_cases hge : 1900 ≤ y
    · exact ⟨_, pyGet_nat_in _ _ (by omega) (by rw [h1]; omega)⟩
    · exact ⟨_, pyGet_neg_in _ _ (by omega) (by rw [h1]; push_cast; omega)⟩
  have hv2 : ∃ v, pyGet T.LUNARNEWYEAR (y - 1900) = some v := by
    by_cases hge : 1900 ≤ y
    · exact ⟨_, pyGet_nat_in _ _ (by omega) (by rw [h2]; omega)⟩
    · exact ⟨_, pyGet_neg_in _ _ (by omega) (by rw [h2]; push_cast; omega)⟩
  obtain ⟨v1, hv1⟩ := hv1
  obtain ⟨v2, hv2⟩ := hv2
  have hred : init T y m d leap =
      if validate T.LUNARYEARCODE y m d leap then Except.ok ⟨y, m, d, leap⟩
      else Except.error PyError.typeError := by
    unfold init
    rw [hv1, hv2]
  rw [hred]
  constructor
  · by_cases hval : validate T.LUNARYEARCODE y m d leap = true
    · rw [if_pos hval]
      constructor
      · intro hc
        exact absurd hc (by simp)
      · intro hc
        rw [hval] at hc
        exact absurd hc (by simp)
    · rw [if_neg hval]
      simp only [Bool.not_eq_true] at hval
      exact ⟨fun _ => hval, fun _ => rfl⟩
  · intro hval
    rw [if_pos hval]

theorem init_validate_claim_witness :
    (validate mockTable.LUNARYEARCODE 1901 2 30 false = false ∧
      init mockTable 1901 2 30 false = Except.error PyError.typeError) ∧
    init mockTable 1901 2 29 false = Except.ok ⟨1901, 2, 29, false⟩ :=
  ⟨⟨by decide,
      ((init_validate_claim mockTable (by decide) (by decide) 1901 2 30 false
        (by decide)).1).mpr (by decide)⟩,
    (init_validate_claim mockTable (by decide) (by decide) 1901 2 29 false
      (by decide)).2 (by decide)⟩

/-- C6 counterexample: at year 2101 the table lookup in `__init__`
raises `IndexError` before validation, so construction does not raise
the `InvalidLunarDate` rejection even though `validate` returns false —
the claimed equivalence fails as stated. -/
theorem init_validate_claim_cex :
    validate mockTable.LUNARYEARCODE 2101 1 1 false = false ∧
      init mockTable 2101 1 1 false = Except.error PyError.indexError ∧
      init mockTable 2101 1 1 false ≠ Except.error PyError.typeError :=
  ⟨by decide, by decide, by decide⟩

/-- C10: `__init__` performs its two table lookups before calling
`validate`; with the 201-entry table every year ≥ 2101 therefore fails
with `IndexError` rather than the validation error, while years
1699..1899 wrap around via Python negative indexing, the lookups
succeed, and the documented validation `TypeError` is raised. -/
theorem init_table_indexing_claim (T : LunarTable) (h1 : T.LUNARYEARCODE.length = 201)
    (h2 : T.LUNARNEWYEAR.length = 201) (y m d : ℤ) (leap : Bool) :
    (2101 ≤ y → init T y m d leap = Except.error PyError.indexError) ∧
    (1699 ≤ y → y ≤ 1899 → init T y m d leap = Except.error PyError.typeError) := by
  constructor
  · intro hy
    unfold init
    rw [pyGet_none_of_ge _ _ (by rw [h1]; push_cast; omega)]
  · intro hy1 hy2
    have hv1 := pyGet_neg_in T.LUNARYEARCODE (y - 1900) (by omega)
      (by rw [h1]; push_cast; omega)
    have hv2 := pyGet_neg_in T.LUNARNEWYEAR (y - 1900) (by omega)
      (by rw [h2]; push_cast; omega)
    unfold init
    rw [hv1, hv2, validate_false_of_out T.LUNARYEARCODE y m d leap (by omega)]
    rfl

theorem init_table_indexing_claim_witness :
    init mockTable 2101 1 1 false = Except.error PyError.indexError ∧
      init mockTable 1800 1 1 false = Except.error PyError.typeError :=
  ⟨(init_table_indexing_claim mockTable (by decide) (by decide) 2101 1 1 false).1
      (by decide),
    (init_table_indexing_claim mockTable (by decide) (by decide) 1800 1 1 false).2
      (by decide) (by decide)⟩

/-- C1 (amended): for every lunar date `(y, m, d, leap)` passing
validation whose Gregorian image falls in a Gregorian year ≤ 2100,
converting to a Gregorian date and back yields the same lunar date.
Valid dates late in lunar year 2100 fall in Gregorian 2101, where
`from_datetime`'s table lookup by Gregorian year raises `IndexError`
instead (see the counterexample), so the unrestricted claim fails. -/
theorem roundtrip_lunar_gregorian_claim (T : LunarTable) (hT : SpecTable T)
    (y m d : ℤ) (leap : Bool)
    (hv : validate T.LUNARYEARCODE y m d leap = true)
    (hcov : yearOf (to_datetime T ⟨y, m, d, leap⟩) ≤ 2100) :
    from_datetime T (to_datetime T ⟨y, m, d, leap⟩) = Except.ok ⟨y, m, d, leap⟩ := by
  obtain ⟨hdp0, hdptot, hok⟩ := from_body_at_days T hT y m d leap hv
  obtain ⟨h1, h2, _, _, _, _, _, _⟩ :=
    validate_true_elim T.LUNARYEARCODE hT.hcode_len y m d leap hv
  have hdt : to_datetime T ⟨y, m, d, leap⟩ =
      ((newYearOf T y : ℕ) : ℤ) + days_passed T ⟨y, m, d, leap⟩ := rfl
  obtain ⟨hy0a, hy0b, heq⟩ := resolve_year T hT y (to_datetime T ⟨y, m, d, leap⟩) h1 h2
    (by rw [hdt]; omega) (by rw [hdt]; omega) hcov
  rw [from_datetime_eq_body T hT _ hy0a hy0b, heq, hdt]
  exact hok

theorem roundtrip_lunar_gregorian_claim_witness :
    validate mockTable.LUNARYEARCODE 1900 1 1 false = true ∧
      from_datetime mockTable (to_datetime mockTable ⟨1900, 1, 1, false⟩) =
        Except.ok ⟨1900, 1, 1, false⟩ :=
  ⟨by decide, roundtrip_lunar_gregorian_claim mockTable mockTable_spec 1900 1 1 false
    (by decide) (by decide)⟩

/-- C1 counterexample: on a table satisfying every spec invariant, the
valid lunar date 2100-12-29 maps to a Gregorian day in year 2101, and
converting it back raises `IndexError` instead of returning the date,
refuting the claim as stated. -/
theorem roundtrip_lunar_gregorian_claim_cex :
    SpecTable mockTable ∧
      validate mockTable.LUNARYEARCODE 2100 12 29 false = true ∧
      from_datetime mockTable (to_datetime mockTable ⟨2100, 12, 29, false⟩) =
        Except.error PyError.indexError :=
  ⟨mockTable_spec, by decide, by decide⟩

/-- C2 (amended): every Gregorian date on or after lunar New Year 1900,
strictly before the end of lunar year 2100, and falling in a Gregorian
year ≤ 2100 converts to a lunar date that converts back to the same
Gregorian date.  Dates of lunar year 2100 lying in Gregorian 2101 make
`from_datetime` raise `IndexError` instead (see the counterexample), so
the unrestricted claim fails. -/
theorem roundtrip_gregorian_lunar_claim (T : LunarTable) (hT : SpecTable T) (dt : ℤ)
    (hlo : ((newYearOf T 1900 : ℕ) : ℤ) ≤ dt)
    (hhi : dt < ((newYearOf T 2100 : ℕ) : ℤ) + (((decode (yearCodeOf T 2100)).sum : ℕ) : ℤ))
    (hcov : yearOf dt ≤ 2100) :
    ∃ z : ZhDate, from_datetime T dt = Except.ok z ∧ to_datetime T z = dt := by
  obtain ⟨y, hy1, hy2, hy3, hy4⟩ := find_lunar_year T hT dt hlo hhi
  obtain ⟨k, hk, hk1, hk2, hval, hdp⟩ := exists_valid_at_dp T hT y hy1 hy2
    (dt - ((newYearOf T y : ℕ) : ℤ)) (by omega) (by omega)
  obtain ⟨_, _, hok⟩ := from_body_at_days T hT y
    (if yearCodeOf T y &&& 0xF = 0 ∨ ((k : ℤ) + 1) ≤ ((yearCodeOf T y &&& 0xF : ℕ) : ℤ)
      then (k : ℤ) + 1 else (k : ℤ))
    (dt - ((newYearOf T y : ℕ) : ℤ) -
      ((((decode (yearCodeOf T y)).take k).sum : ℕ) : ℤ) + 1)
    (decide (yearCodeOf T y &&& 0xF ≠ 0) &&
      decide ((k : ℤ) + 1 = ((yearCodeOf T y &&& 0xF : ℕ) : ℤ) + 1)) hval
  rw [hdp, show ((newYearOf T y : ℕ) : ℤ) + (dt - ((newYearOf T y : ℕ) : ℤ)) = dt
    from by ring] at hok
  obtain ⟨hy0a, hy0b, heq⟩ := resolve_year T hT y dt hy1 hy2 hy3 hy4 hcov
  refine ⟨⟨y,
    if yearCodeOf T y &&& 0xF = 0 ∨ ((k : ℤ) + 1) ≤ ((yearCodeOf T y &&& 0xF : ℕ) : ℤ)
      then (k : ℤ) + 1 else (k : ℤ),
    dt - ((newYearOf T y : ℕ) : ℤ) -
      ((((decode (yearCodeOf T y)).take k).sum : ℕ) : ℤ) + 1,
    decide (yearCodeOf T y &&& 0xF ≠ 0) &&
      decide ((k : ℤ) + 1 = ((yearCodeOf T y &&& 0xF : ℕ) : ℤ) + 1)⟩, ?_, ?_⟩
  · rw [from_datetime_eq_body T hT dt hy0a hy0b, heq]
    exact hok
  · show ((newYearOf T y : ℕ) : ℤ) + days_passed T _ = dt
    rw [hdp]
    ring

theorem roundtrip_gregorian_lunar_claim_witness :
    ((newYearOf mockTable 1900 : ℕ) : ℤ) ≤ ((newYearOf mockTable 1950 : ℕ) : ℤ) ∧
      ∃ z : ZhDate,
        from_datetime mockTable ((newYearOf mockTable 1950 : ℕ) : ℤ) = Except.ok z ∧
          to_datetime mockTable z = ((newYearOf mockTable 1950 : ℕ) : ℤ) :=
  ⟨by decide, roundtrip_gregorian_lunar_claim mockTable mockTable_spec
    ((newYearOf mockTable 1950 : ℕ) : ℤ) (by decide) (by decide) (by decide)⟩

/-- C2 counterexample: on a table satisfying every spec invariant,
January 1st of Gregorian 2101 lies inside lunar year 2100 (so inside
the claimed range), yet `from_datetime` raises `IndexError`, refuting
the claim as stated. -/
theorem roundtrip_gregorian_lunar_claim_cex :
    SpecTable mockTable ∧
      ((newYearOf mockTable 1900 : ℕ) : ℤ) ≤ ((daysBeforeYear 2101 : ℕ) : ℤ) ∧
      ((daysBeforeYear 2101 : ℕ) : ℤ) < ((newYearOf mockTable 2100 : ℕ) : ℤ) +
        (((decode (yearCodeOf mockTable 2100)).sum : ℕ) : ℤ) ∧
      from_datetime mockTable ((daysBeforeYear 2101 : ℕ) : ℤ) =
        Except.error PyError.indexError :=
  ⟨mockTable_spec, by decide, by decide, by decide⟩

/-- C8: for every convertible Gregorian date, `from_datetime` assigns
lunar year `dt.year`, decremented exactly when the date falls strictly
before that Gregorian year's lunar New Year; each lunar New Year maps
to `(year, 1, 1, false)`; the day before a lunar New Year maps to the
last day (month 12, final decoded month length) of the previous lunar
year. -/
theorem from_datetime_year_resolution_claim (T : LunarTable) (hT : SpecTable T) :
    (∀ (dt : ℤ) (z : ZhDate), from_datetime T dt = Except.ok z →
      z.lunar_year =
        yearOf dt - (if dt < ((newYearOf T (yearOf dt) : ℕ) : ℤ) then 1 else 0)) ∧
    (∀ y : ℤ, 1900 ≤ y → y ≤ 2100 →
      from_datetime T ((newYearOf T y : ℕ) : ℤ) = Except.ok ⟨y, 1, 1, false⟩) ∧
    (∀ y : ℤ, 1901 ≤ y → y ≤ 2100 →
      ∃ z : ZhDate, from_datetime T (((newYearOf T y : ℕ) : ℤ) - 1) = Except.ok z ∧
        z.lunar_year = y - 1 ∧ z.lunar_month = 12 ∧
        z.lunar_day = (((decode (yearCodeOf T (y - 1))).getD
          ((decode (yearCodeOf T (y - 1))).length - 1) 0 : ℕ) : ℤ)) := by
  refine ⟨?_, ?_, ?_⟩
  · intro dt z hok
    unfold from_datetime at hok
    cases hpg : pyGet T.LUNARNEWYEAR (yearOf dt - 1900) with
    | none =>
      rw [hpg] at hok
      exact absurd hok (by simp)
    | some ny0 =>
      rw [hpg] at hok
      dsimp only at hok
      have hny : newYearOf T (yearOf dt) = ny0 := by
        unfold newYearOf
        rw [hpg]
        rfl
      have hyear := from_body_ok_year T _ dt z hok
      rw [hyear, hny]
      by_cases hc : dt < (ny0 : ℤ)
      · rw [if_pos (by omega), if_pos hc]
      · rw [if_neg (by omega), if_neg hc]
  · intro y hy1 hy2
    have hv : validate T.LUNARYEARCODE y 1 1 false = true := by
      apply validate_true_intro T.LUNARYEARCODE hT.hcode_len y 1 1 false
        ⟨hy1, hy2, by omega, by omega, by omega, by omega⟩
      · intro h
        exact absurd h Bool.false_ne_true
      · intro _ h30
        exact absurd h30 (by omega)
    obtain ⟨_, _, hok⟩ := from_body_at_days T hT y 1 1 false hv
    have hs1 : slotOf (yearCodeOf T y &&& 0xF) (1 : ℤ).toNat false = 1 := by
      unfold slotOf
      rw [if_neg (by simp), if_pos (by omega)]
      rfl
    have hdp0 : days_passed T ⟨y, 1, 1, false⟩ = 0 := by
      have hq := days_passed_eq T y 1 1 false (by omega) (by omega)
        (fun h => absurd h Bool.false_ne_true)
      rw [hs1] at hq
      simpa using hq
    rw [hdp0, add_zero] at hok
    have hsum1 : 1 ≤ (decode (yearCodeOf T y)).sum :=
      decode_sum_pos _ (spec_leap_le T hT y hy1 hy2)
    obtain ⟨hy0a, hy0b, heq⟩ := resolve_year T hT y ((newYearOf T y : ℕ) : ℤ) hy1 hy2
      (le_refl _) (by omega) (by rw [spec_ny_year T hT y hy1 hy2]; exact hy2)
    rw [from_datetime_eq_body T hT _ hy0a hy0b, heq]
    exact hok
  · intro y hy1 hy2
    have hstep := spec_ny_step T hT (y - 1) (by omega) (by omega)
    rw [show y - 1 + 1 = y from by ring] at hstep
    have hstep' : ((newYearOf T y : ℕ) : ℤ) =
        ((newYearOf T (y - 1) : ℕ) : ℤ) +
          (((decode (yearCodeOf T (y - 1))).sum : ℕ) : ℤ) := by
      exact_mod_cast hstep
    have hL12 : yearCodeOf T (y - 1) &&& 0xF ≤ 12 :=
      spec_leap_le T hT (y - 1) (by omega) (by omega)
    have htot1 : 1 ≤ (decode (yearCodeOf T (y - 1))).sum := decode_sum_pos _ hL12
    obtain ⟨k, hk, hk1, hk2, hval, hdp⟩ := exists_valid_at_dp T hT (y - 1)
      (by omega) (by omega) ((((decode (yearCodeOf T (y - 1))).sum : ℕ) : ℤ) - 1)
      (by omega) (by omega)
    have hcum_len : ((decode (yearCodeOf T (y - 1))).take
        (decode (yearCodeOf T (y - 1))).length).sum = (decode (yearCodeOf T (y - 1))).sum :=
      sum_take_length _
    have hcum_succ : ((decode (yearCodeOf T (y - 1))).take (k + 1)).sum =
        ((decode (yearCodeOf T (y - 1))).take k).sum +
          (decode (yearCodeOf T (y - 1))).getD k 0 :=
      sum_take_succ_getD _ k hk
    have hklen : k + 1 = (decode (yearCodeOf T (y - 1))).length := by
      by_contra hne
      have hk2' : k + 1 < (decode (yearCodeOf T (y - 1))).length := by omega
      have hcum_succ2 : ((decode (yearCodeOf T (y - 1))).take (k + 2)).sum =
          ((decode (yearCodeOf T (y - 1))).take (k + 1)).sum +
            (decode (yearCodeOf T (y - 1))).getD (k + 1) 0 :=
        sum_take_succ_getD _ (k + 1) hk2'
      have hge29 := decode_getD_ge29 _ hL12 (k + 1) hk2'
      have hmono := sum_take_mono (decode (yearCodeOf T (y - 1)))
        (show k + 2 ≤ (decode (yearCodeOf T (y - 1))).length from by omega)
      rw [hcum_len] at hmono
      omega
    have hmlen := decode_length (yearCodeOf T (y - 1)) hL12
    have hm12 : (if yearCodeOf T (y - 1) &&& 0xF = 0 ∨
        ((k : ℤ) + 1) ≤ ((yearCodeOf T (y - 1) &&& 0xF : ℕ) : ℤ)
        then (k : ℤ) + 1 else (k : ℤ)) = 12 := by
      by_cases hL0 : yearCodeOf T (y - 1) &&& 0xF = 0
      · rw [if_pos (Or.inl hL0)]
        rw [hmlen, if_pos hL0] at hklen
        omega
      · rw [hmlen, if_neg hL0] at hklen
        rw [if_neg (by push_neg; exact ⟨hL0, by omega⟩)]
        omega
    have hdval : (((decode (yearCodeOf T (y - 1))).sum : ℕ) : ℤ) - 1 -
        ((((decode (yearCodeOf T (y - 1))).take k).sum : ℕ) : ℤ) + 1 =
        (((decode (yearCodeOf T (y - 1))).getD
          ((decode (yearCodeOf T (y - 1))).length - 1) 0 : ℕ) : ℤ) := by
      rw [show (decode (yearCodeOf T (y - 1))).length - 1 = k from by omega]
      rw [hklen, hcum_len] at hcum_succ
      omega
    obtain ⟨_, _, hok⟩ := from_body_at_days T hT (y - 1)
      (if yearCodeOf T (y - 1) &&& 0xF = 0 ∨
          ((k : ℤ) + 1) ≤ ((yearCodeOf T (y - 1) &&& 0xF : ℕ) : ℤ)
        then (k : ℤ) + 1 else (k : ℤ))
      ((((decode (yearCodeOf T (y - 1))).sum : ℕ) : ℤ) - 1 -
        ((((decode (yearCodeOf T (y - 1))).take k).sum : ℕ) : ℤ) + 1)
      (decide (yearCodeOf T (y - 1) &&& 0xF ≠ 0) &&
        decide ((k : ℤ) + 1 = ((yearCodeOf T (y - 1) &&& 0xF : ℕ) : ℤ) + 1)) hval
    rw [hdp] at hok
    rw [show ((newYearOf T (y - 1) : ℕ) : ℤ) +
        ((((decode (yearCodeOf T (y - 1))).sum : ℕ) : ℤ) - 1) =
        ((newYearOf T y : ℕ) : ℤ) - 1 from by omega] at hok
    have hcovc : yearOf (((newYearOf T y : ℕ) : ℤ) - 1) ≤ 2100 := by
      have hmono := yearOf_mono_int
        (show ((newYearOf T y : ℕ) : ℤ) - 1 ≤ ((newYearOf T y : ℕ) : ℤ) from by omega)
      rw [spec_ny_year T hT y (by omega) hy2] at hmono
      omega
    obtain ⟨hy0a, hy0b, heq⟩ := resolve_year T hT (y - 1) (((newYearOf T y : ℕ) : ℤ) - 1)
      (by omega) (by omega) (by omega) (by omega) hcovc
    refine ⟨⟨y - 1,
      if yearCodeOf T (y - 1) &&& 0xF = 0 ∨
          ((k : ℤ) + 1) ≤ ((yearCodeOf T (y - 1) &&& 0xF : ℕ) : ℤ)
        then (k : ℤ) + 1 else (k : ℤ),
      (((decode (yearCodeOf T (y - 1))).sum : ℕ) : ℤ) - 1 -
        ((((decode (yearCodeOf T (y - 1))).take k).sum : ℕ) : ℤ) + 1,
      decide (yearCodeOf T (y - 1) &&& 0xF ≠ 0) &&
        decide ((k : ℤ) + 1 = ((yearCodeOf T (y - 1) &&& 0xF : ℕ) : ℤ) + 1)⟩,
      ?_, rfl, hm12, hdval⟩
    rw [from_datetime_eq_body T hT _ hy0a hy0b, heq]
    exact hok

theorem from_datetime_year_resolution_claim_witness :
    from_datetime mockTable ((newYearOf mockTable 1950 : ℕ) : ℤ) =
        Except.ok ⟨1950, 1, 1, false⟩ ∧
      ∃ z : ZhDate,
        from_datetime mockTable (((newYearOf mockTable 1950 : ℕ) : ℤ) - 1) =
            Except.ok z ∧
          z.lunar_year = 1949 ∧ z.lunar_month = 12 ∧
          z.lunar_day = (((decode (yearCodeOf mockTable (1950 - 1))).getD
            ((decode (yearCodeOf mockTable (1950 - 1))).length - 1) 0 : ℕ) : ℤ) :=
  ⟨(from_datetime_year_resolution_claim mockTable mockTable_spec).2.1 1950
      (by decide) (by decide),
    by
      obtain ⟨z, hz1, hz2, hz3, hz4⟩ :=
        (from_datetime_year_resolution_claim mockTable mockTable_spec).2.2 1950
          (by decide) (by decide)
      exact ⟨z, hz1, by rw [hz2]; decide, hz3, hz4⟩⟩

/-- C9: for every valid lunar date the traditional rendering is the
four year-digit glyphs, `年`, the `闰` marker when the leap flag is set,
the month name, `月`, the day name, a space, then the stem-table entry
at index `(lunarYear - 1900 + 36) mod 10` concatenated with the
branch-table entry at index `(lunarYear - 1900 + 36) mod 12`, the
zodiac-table entry at index `(lunarYear - 1900) mod 12`, and a final
`年`. -/
theorem chinese_format_claim (ZHNUMS SHENGXIAO TIANGAN DIZHI : List String)
    (y m d : ℤ) (leap : Bool)
    (_hy : 1900 ≤ y ∧ y ≤ 2100) (_hm : 1 ≤ m ∧ m ≤ 12) (_hd : 1 ≤ d ∧ d ≤ 30) :
    chinese ZHNUMS SHENGXIAO TIANGAN DIZHI ⟨y, m, d, leap⟩ =
      (strAt ZHNUMS (y.toNat / 1000 % 10) ++ strAt ZHNUMS (y.toNat / 100 % 10) ++
        strAt ZHNUMS (y.toNat / 10 % 10) ++ strAt ZHNUMS (y.toNat % 10)) ++ "年" ++
      ((if leap then "闰" else "") ++
        (if m = 1 then "正" else if m = 12 then "腊"
         else if m ≤ 10 then strAt ZHNUMS m.toNat
         else "十" ++ strAt ZHNUMS (m - 10).toNat)) ++ "月" ++
      (if d ≤ 10 then "初" ++ strAt ZHNUMS d.toNat
       else if d < 20 then "十" ++ strAt ZHNUMS (d - 10).toNat
       else if d = 20 then "二十"
       else if d < 30 then "廿" ++ strAt ZHNUMS (d - 20).toNat
       else "三十") ++ " " ++
      (strAt TIANGAN ((y - 1900 + 36) % 10).toNat ++
        strAt DIZHI ((y - 1900 + 36) % 12).toNat) ++
      strAt SHENGXIAO ((y - 1900) % 12).toNat ++ "年" := by
  unfold chinese tiandi
  rfl

theorem chinese_format_claim_witness :
    chinese ["零", "一", "二", "三", "四", "五", "六", "七", "八", "九", "十"]
        ["鼠", "牛", "虎", "兔", "龙", "蛇", "马", "羊", "猴", "鸡", "狗", "猪"]
        ["甲", "乙", "丙", "丁", "戊", "己", "庚", "辛", "壬", "癸"]
        ["子", "丑", "寅", "卯", "辰", "巳", "午", "未", "申", "酉", "戌", "亥"]
        ⟨2024, 1, 15, false⟩ = "二零二四年正月十五 甲辰龙年" :=
  Eq.trans
    (chinese_format_claim
      ["零", "一", "二", "三", "四", "五", "六", "七", "八", "九", "十"]
      ["鼠", "牛", "虎", "兔", "龙", "蛇", "马", "羊", "猴", "鸡", "狗", "猪"]
      ["甲", "乙", "丙", "丁", "戊", "己", "庚", "辛", "壬", "癸"]
      ["子", "丑", "寅", "卯", "辰", "巳", "午", "未", "申", "酉", "戌", "亥"]
      2024 1 15 false (by decide) (by decide) (by decide))
    (by decide)
